import Mathlib

/-!
Verification of the soju IRC bouncer core against its specification.

Strings from the Go source are modelled as `List Char` (Go code ranges over
runes, and byte-lexicographic order on valid UTF-8 agrees with codepoint
order).  Go maps are modelled as association lists or functions; `nil` byte
slices as `Option`; fallible calls as `Except`.
-/

namespace Soju

/-- A Go string, seen as its sequence of runes. -/
abbrev Str := List Char

/-! ## ircutil: memberships and channel mode types (src/unnamed/part_002) -/

/-- ircutil `Membership`: a `(Mode, Prefix)` pair from the upstream PREFIX
ISUPPORT token.  The prefix field is named `pfx` because `prefix` is a Lean
keyword. -/
structure Membership where
  mode : Char
  pfx : Char
deriving DecidableEq, Repr

/-- ircutil `ChannelModeType`: the RFC channel-mode taxonomy A/B/C/D. -/
inductive ChannelModeType where
  | A | B | C | D
deriving DecidableEq, Repr

/-- ircutil `StdChannelModes`. -/
def StdChannelModes : Char → Option ChannelModeType := fun c =>
  if c = 'b' then some .A
  else if c = 'e' then some .A
  else if c = 'I' then some .A
  else if c = 'k' then some .B
  else if c = 'l' then some .C
  else if c = 'i' then some .D
  else if c = 'm' then some .D
  else if c = 'n' then some .D
  else if c = 's' then some .D
  else if c = 't' then some .D
  else none

/-- ircutil `StdMemberships`. -/
def StdMemberships : List Membership :=
  [⟨'q', '~'⟩, ⟨'a', '&'⟩, ⟨'o', '@'⟩, ⟨'h', '%'⟩, ⟨'v', '+'⟩]

/-- The loop body of ircutil `Memberships.Add`: walk `availableMemberships`
(rank order) and the current list in lock step; `l` is the still-unvisited
suffix of the membership list (index `i` in the Go code), and the returned
list is that suffix after insertion.  Mirrors the Go control flow exactly:
the loop breaks when the list is exhausted or when the rank of `newM`
is reached, and returns early when `newM` is already present. -/
def memAddGo (newM : Membership) : List Membership → List Membership → List Membership
  | [], l => newM :: l
  | _ :: _, [] => [newM]
  | a :: avail, x :: l =>
    if x = a then
      if a = newM then x :: l
      else x :: memAddGo newM avail l
    else if a = newM then newM :: x :: l
    else memAddGo newM avail (x :: l)

/-- ircutil `Memberships.Add`. -/
def memAdd (availableMemberships : List Membership) (newM : Membership)
    (l : List Membership) : List Membership :=
  memAddGo newM availableMemberships l

/-- ircutil `Memberships.Remove`: drop the first occurrence. -/
def memRemove (oldM : Membership) : List Membership → List Membership
  | [] => []
  | x :: l => if x = oldM then l else x :: memRemove oldM l

/-- The `multi-prefix` capability name. -/
def multiPrefixCap : Str := "multi-prefix".toList

/-- ircutil `Memberships.Format`: without `multi-prefix` only the prefix of
the first (highest-ranked) membership, with it all prefixes in order.
`caps` models the Go `map[string]bool` (absent keys read as `false`). -/
def memFormat (caps : Str → Bool) (m : List Membership) : Str :=
  if ¬ caps multiPrefixCap then
    match m with
    | [] => []
    | x :: _ => [x.pfx]
  else m.map (·.pfx)

/-! ## Upstream channel state and `applyChannelModes` (src/bridge.go) -/

/-- Go map assignment `m[k] = v` on an association list. -/
def mapInsert (k : Char) (v : Str) (m : List (Char × Str)) : List (Char × Str) :=
  if m.any (·.1 = k) then m.map (fun p => if p.1 = k then (k, v) else p)
  else m ++ [(k, v)]

/-- Go `delete(m, k)` on an association list. -/
def mapErase (k : Char) (m : List (Char × Str)) : List (Char × Str) :=
  m.filter (·.1 ≠ k)

/-- The parts of `upstreamConn` that `applyChannelModes` reads. -/
structure UpstreamConn where
  availableMemberships : List Membership
  availableChannelModes : Char → Option ChannelModeType

/-- The parts of `upstreamChannel` that `applyChannelModes` mutates:
`Members` (nick → ordered memberships) and `modes` (`none` models the nil
map, in which case channel modes are not updated). -/
structure UpstreamChannel where
  members : List (Str × List Membership)
  modes : Option (List (Char × Str))

/-- Update the memberships of `member` in the members map, if present
(mirrors `if _, ok := ch.Members[member]; ok { ... }`). -/
def updateMember (ch : UpstreamChannel) (member : Str)
    (f : List Membership → List Membership) : UpstreamChannel :=
  if ch.members.any (·.1 = member) then
    { ch with members := ch.members.map (fun p => if p.1 = member then (p.1, f p.2) else p) }
  else ch

def errMissingPlusMinus : Str := "malformed modestring: missing plus/minus".toList
def errMissingModeArgument : Str := "malformed modestring: missing mode argument".toList

/-- The loop of bridge.go `applyChannelModes`, with the loop variables
(`plusMinus`, `nextArgument`, `needMarshaling`) explicit; on success it also
returns the final `nextArgument`, i.e. how many mode arguments were
consumed. -/
def applyChannelModesLoop (conn : UpstreamConn) (arguments : List Str) :
    List Char → Option Char → Nat → List Nat → UpstreamChannel →
    Except Str (UpstreamChannel × List Nat × Nat)
  | [], _, nextArg, nm, ch => .ok (ch, nm, nextArg)
  | mode :: rest, plusMinus, nextArg, nm, ch =>
    if mode = '+' ∨ mode = '-' then
      applyChannelModesLoop conn arguments rest (some mode) nextArg nm ch
    else if plusMinus ≠ some '+' ∧ plusMinus ≠ some '-' then
      .error errMissingPlusMinus
    else
      match conn.availableMemberships.find? (fun m => m.mode = mode) with
      | some membership =>
        if arguments.length ≤ nextArg then .error errMissingModeArgument
        else
          let member := arguments.getD nextArg []
          let ch' :=
            if plusMinus = some '+' then
              updateMember ch member (memAdd conn.availableMemberships membership)
            else
              updateMember ch member (memRemove membership)
          applyChannelModesLoop conn arguments rest plusMinus (nextArg + 1) (nm ++ [nextArg]) ch'
      | none =>
        match conn.availableChannelModes mode with
        | none => applyChannelModesLoop conn arguments rest plusMinus nextArg nm ch
        | some mt =>
          if mt = .B ∨ (mt = .C ∧ plusMinus = some '+') then
            let ch' :=
              if plusMinus = some '+' then
                -- a sensitive argument may be omitted; it then defaults to ""
                let argument := arguments.getD nextArg []
                { ch with modes := ch.modes.map (mapInsert mode argument) }
              else
                { ch with modes := ch.modes.map (mapErase mode) }
            applyChannelModesLoop conn arguments rest plusMinus (nextArg + 1) nm ch'
          else if mt = .C ∨ mt = .D then
            let ch' :=
              if plusMinus = some '+' then
                { ch with modes := ch.modes.map (mapInsert mode []) }
              else
                { ch with modes := ch.modes.map (mapErase mode) }
            applyChannelModesLoop conn arguments rest plusMinus nextArg nm ch'
          else -- mt = .A: neither branch of the Go if/else chain applies
            applyChannelModesLoop conn arguments rest plusMinus nextArg nm ch

/-- bridge.go `applyChannelModes`. -/
def applyChannelModes (conn : UpstreamConn) (ch : UpstreamChannel)
    (modeStr : Str) (arguments : List Str) :
    Except Str (UpstreamChannel × List Nat) :=
  (applyChannelModesLoop conn arguments modeStr none 0 [] ch).map
    (fun r => (r.1, r.2.1))

/-- The number of mode arguments `applyChannelModes` consumes, when it
succeeds. -/
def applyChannelModesCount (conn : UpstreamConn) (ch : UpstreamChannel)
    (modeStr : Str) (arguments : List Str) : Option Nat :=
  match applyChannelModesLoop conn arguments modeStr none 0 [] ch with
  | .ok r => some r.2.2
  | .error _ => none

/-! ## IRC wire messages and their serialized length

`gopkg.in/irc.v3` serializes a message as `[":" prefix " "] command
(" " param)*`, writing the final parameter as `" :" param` when it is empty,
contains a space, or starts with `':'`.  soju compares that serialization
against ircutil `MaxMessageLen = 512`. -/

structure IrcMsg where
  pfx : Option Str
  command : Str
  params : List Str
deriving DecidableEq, Repr

/-- Whether irc.v3 writes the last parameter with a leading `':'`. -/
def lastParamColon (p : Str) : Bool :=
  p = [] ∨ ' ' ∈ p ∨ p.head? = some ':'

/-- Serialized length of the parameter list. -/
def paramsLen : List Str → Nat
  | [] => 0
  | [p] => (if lastParamColon p then 2 else 1) + p.length
  | p :: rest => 1 + p.length + paramsLen rest

/-- Serialized length of a whole message (without the trailing CRLF, exactly
as `Message.String()` which soju measures against 512). -/
def msgLen (m : IrcMsg) : Nat :=
  (match m.pfx with
   | none => 0
   | some p => 1 + p.length + 1) + m.command.length + paramsLen m.params

def MaxMessageLen : Nat := 512

/-! ## bridge.go `sendNames` -/

/-- The formatted entry for one member of a NAMES reply:
`memberships.Format(dc.caps) + dc.marshalEntity(ch.conn.network, nick)`;
`marshal` abstracts `dc.marshalEntity` applied to the channel's network. -/
def namesEntry (caps : Str → Bool) (marshal : Str → Str)
    (member : Str × List Membership) : Str :=
  memFormat caps member.2 ++ marshal member.1

/-- The contents of the `strings.Builder` holding `buf`: a separating space
is written only when the builder is non-empty, as in the Go loop. -/
def namesBuf (buf : List Str) : Str :=
  buf.foldl (fun b s => if b = [] then s else b ++ [' '] ++ s) []

/-- The chunking loop of `sendNames`: split the member entries into groups,
one RPL_NAMREPLY per group.  `buf` is the group under construction; a group
is flushed when the builder is non-empty (`buf.Len() != 0`, i.e. the
accumulated string is non-empty) and appending the next entry (one
separating space plus the entry) would push the builder past `maxLength`;
the final group is emitted only if its builder is non-empty. -/
def sendNamesChunks (maxLength : Nat) : List Str → List Str → List (List Str)
  | buf, [] => if namesBuf buf = [] then [] else [buf]
  | buf, s :: rest =>
    let n := (namesBuf buf).length + 1 + s.length
    if namesBuf buf ≠ [] ∧ n > maxLength then
      buf :: sendNamesChunks maxLength [s] rest
    else
      sendNamesChunks maxLength (buf ++ [s]) rest

/-- The RPL_NAMREPLY skeleton with trailing parameter `t`. -/
def nameReply (srvPrefix nick : Str) (status : Char) (downstreamName t : Str) : IrcMsg :=
  ⟨some srvPrefix, "353".toList, [nick, [status], downstreamName, t]⟩

/-- The RPL_ENDOFNAMES message closing a NAMES reply. -/
def endOfNamesReply (srvPrefix nick downstreamName : Str) : IrcMsg :=
  ⟨some srvPrefix, "366".toList, [nick, downstreamName, "End of /NAMES list".toList]⟩

/-- The groups of formatted member entries, one RPL_NAMREPLY per group. -/
def sendNamesGroups (srvPrefix nick : Str) (status : Char) (downstreamName : Str)
    (caps : Str → Bool) (marshal : Str → Str)
    (members : List (Str × List Membership)) : List (List Str) :=
  sendNamesChunks
    (MaxMessageLen - msgLen (nameReply srvPrefix nick status downstreamName []))
    [] (members.map (namesEntry caps marshal))

/-- bridge.go `sendNames`: the sequence of messages sent for one channel, a
run of RPL_NAMREPLY followed by RPL_ENDOFNAMES.  `members` enumerates the
Go `ch.Members` map in some order. -/
def sendNames (srvPrefix nick : Str) (status : Char) (downstreamName : Str)
    (caps : Str → Bool) (marshal : Str → Str)
    (members : List (Str × List Membership)) : List IrcMsg :=
  (sendNamesGroups srvPrefix nick status downstreamName caps marshal members).map
    (fun buf => nameReply srvPrefix nick status downstreamName (namesBuf buf)) ++
  [endOfNamesReply srvPrefix nick downstreamName]

/-! ## ircutil `Join` -/

/-- One `(channel, key)` pair handed to `Join`. -/
structure JoinEntry where
  channel : Str
  key : Str
deriving DecidableEq, Repr

/-- Go byte-wise string comparison `<` (codepoint order). -/
def strLt : Str → Str → Bool
  | [], [] => false
  | [], _ :: _ => true
  | _ :: _, [] => false
  | a :: as, b :: bs => if a < b then true else if b < a then false else strLt as bs

/-- `joinSorter.Less`: channels with a key first, then by channel name. -/
def joinLess (e₁ e₂ : JoinEntry) : Bool :=
  if (e₁.key ≠ []) ≠ (e₂.key ≠ []) then e₁.key ≠ [] else strLt e₁.channel e₂.channel

def joinInsert (e : JoinEntry) : List JoinEntry → List JoinEntry
  | [] => [e]
  | x :: rest => if joinLess e x then e :: x :: rest else x :: joinInsert e rest

/-- The `sort.Sort(&js)` call: some permutation ordered by `joinLess`;
modelled as insertion sort. -/
def joinSort : List JoinEntry → List JoinEntry
  | [] => []
  | e :: rest => joinInsert e (joinSort rest)

/-- Contents of `channelsBuf` after the entries of `g` have been appended
(a comma is written only when the builder is non-empty, as in the Go). -/
def chanBuf (g : List JoinEntry) : Str :=
  g.foldl (fun b e => if b = [] then e.channel else b ++ [','] ++ e.channel) []

/-- Contents of `keysBuf`: keys of the entries with a non-empty key. -/
def keyBuf (g : List JoinEntry) : Str :=
  g.foldl (fun b e => if e.key = [] then b else if b = [] then e.key else b ++ [','] ++ e.key) []

def joinMaxLength : Nat := MaxMessageLen - ("JOIN".toList.length + 2)

/-- The room one entry takes in a JOIN message: a separator plus the
channel, and a separator plus the key when there is one. -/
def joinWeight (e : JoinEntry) : Nat :=
  1 + e.channel.length + (if e.key = [] then 0 else 1 + e.key.length)

/-- The grouping loop of `Join`: `g` is the group of entries accumulated in
the two builders; a group is flushed when the channels builder is non-empty
(`channelsBuf.Len() > 0`) and the next entry no longer fits; the final
group is emitted only if its channels builder is non-empty. -/
def joinGroups : List JoinEntry → List JoinEntry → List (List JoinEntry)
  | g, [] => if chanBuf g = [] then [] else [g]
  | g, e :: rest =>
    let n := (chanBuf g).length + (keyBuf g).length + 1 + e.channel.length +
      (if e.key = [] then 0 else 1 + e.key.length)
    if chanBuf g ≠ [] ∧ n > joinMaxLength then
      g :: joinGroups [e] rest
    else
      joinGroups (g ++ [e]) rest

/-- The JOIN message emitted for one group (the keys parameter is appended
only when `keysBuf` is non-empty). -/
def joinMsg (g : List JoinEntry) : IrcMsg :=
  ⟨none, "JOIN".toList,
    [chanBuf g] ++ (if keyBuf g = [] then [] else [keyBuf g])⟩

/-- ircutil `Join`: sort keyed channels first, group under the length limit,
emit one JOIN per group. -/
def Join (entries : List JoinEntry) : List IrcMsg :=
  (joinGroups [] (joinSort entries)).map joinMsg

/-- The groups underlying `Join`'s messages (for stating which entry went to
which message). -/
def joinEntryGroups (entries : List JoinEntry) : List (List JoinEntry) :=
  joinGroups [] (joinSort entries)

/-! ## service.go `splitWords` -/

/-- Go `unicode.IsSpace`: the White_Space property (its full, finite list of
code points). -/
def goIsSpace (c : Char) : Bool :=
  c = ' ' || c = '\t' || c = '\n' || c.val = 11 || c.val = 12 || c = '\r' ||
  c.val = 0x85 || c.val = 0xA0 || c.val = 0x1680 ||
  (0x2000 ≤ c.val && c.val ≤ 0x200A) ||
  c.val = 0x2028 || c.val = 0x2029 || c.val = 0x202F || c.val = 0x205F || c.val = 0x3000

/-- The local state of the `splitWords` loop. -/
structure SWState where
  words : List Str
  lastWord : Str
  escape : Bool
  prev : Char
  wordDelim : Char
deriving Repr

def swInit : SWState := ⟨[], [], false, ' ', ' '⟩

/-- One iteration of the `splitWords` loop, in the Go branch order. -/
def swStep (st : SWState) (r : Char) : SWState :=
  let st' :=
    if st.escape then
      { st with lastWord := st.lastWord ++ [r], escape := false }
    else if r = '\\' then
      { st with escape := true }
    else if st.wordDelim = ' ' ∧ goIsSpace r then
      if ¬ goIsSpace st.prev then
        { st with words := st.words ++ [st.lastWord], lastWord := [] }
      else st
    else if r = st.wordDelim then
      { st with wordDelim := ' ' }
    else if r = '"' ∨ r = '\'' then
      if st.wordDelim = ' ' then { st with wordDelim := r }
      else { st with lastWord := st.lastWord ++ [r] }
    else
      { st with lastWord := st.lastWord ++ [r] }
  { st' with prev := r }

def errUnterminatedQuote : Str := "unterminated quoted string".toList
def errUnterminatedBackslash : Str := "unterminated backslash sequence".toList

/-- service.go `splitWords`: on error no token list is produced. -/
def splitWords (s : Str) : Except Str (List Str) :=
  let st := s.foldl swStep swInit
  let words := if ¬ goIsSpace st.prev then st.words ++ [st.lastWord] else st.words
  if st.wordDelim ≠ ' ' then .error errUnterminatedQuote
  else if st.escape then .error errUnterminatedBackslash
  else .ok words

/-- One step of the quoting/escaping automaton on its own: just the
escape-pending flag and the open quote character (space = no open quote). -/
def scanStep (p : Bool × Char) (r : Char) : Bool × Char :=
  if p.1 then (false, p.2)
  else if r = '\\' then (true, p.2)
  else if r = p.2 then (p.1, ' ')
  else if (r = '"' ∨ r = '\'') ∧ p.2 = ' ' then (p.1, r)
  else p

/-- The quoting/escaping automaton run over a string: the final
`(escape, wordDelim)` pair, which decides "ends inside a quoted span" and
"ends with an unconsumed backslash escape". -/
def scanQuoteState (s : Str) : Bool × Char :=
  s.foldl scanStep (false, ' ')

/-! ## service.go command tree and dispatch -/

/-- service.go `serviceCommand`; `hasHandle` records whether `handle` is
non-nil, `children` is the `serviceCommandSet` as an association list. -/
inductive Cmd where
  | node (usage desc : Str) (hasHandle : Bool) (children : List (Str × Cmd)) (admin : Bool)

def Cmd.usage : Cmd → Str
  | .node u _ _ _ _ => u

def Cmd.desc : Cmd → Str
  | .node _ d _ _ _ => d

def Cmd.hasHandle : Cmd → Bool
  | .node _ _ h _ _ => h

def Cmd.children : Cmd → List (Str × Cmd)
  | .node _ _ _ cs _ => cs

def Cmd.admin : Cmd → Bool
  | .node _ _ _ _ a => a

/-- Go map indexing `cmds[name]` (keys are unique in a map; on an
association list, the first binding wins). -/
def lookupCmd (name : Str) : List (Str × Cmd) → Option Cmd
  | [] => none
  | (k, c) :: rest => if k = name then some c else lookupCmd name rest

/-- The errors `serviceCommandSet.Get` can produce. -/
inductive GetErr where
  | noCommand
  | ambiguous (name : Str)
  | notFound (name : Str)
deriving DecidableEq, Repr

/-- service.go `serviceCommandSet.Get`: exact name first, else unique prefix
match among siblings; recurse into children while params remain. -/
def cmdGet (cmds : List (Str × Cmd)) : List Str → Except GetErr (Cmd × List Str)
  | [] => .error .noCommand
  | name :: params =>
    let found : Except GetErr Cmd :=
      match lookupCmd name cmds with
      | some cmd => .ok cmd
      | none =>
        match cmds.filter (fun p => name.isPrefixOf p.1) with
        | [] => .error (.notFound name)
        | [p] => .ok p.2
        | _ :: _ :: _ => .error (.ambiguous name)
    match found with
    | .error e => .error e
    | .ok cmd =>
      if params.isEmpty || cmd.children.isEmpty then .ok (cmd, params)
      else cmdGet cmd.children params

/-- Go byte-wise `<=` on strings, used by `sort.Strings`. -/
def strLe (a b : Str) : Bool := ¬ strLt b a

def cmdInsert (p : Str × Cmd) : List (Str × Cmd) → List (Str × Cmd)
  | [] => [p]
  | q :: rest => if strLe p.1 q.1 then p :: q :: rest else q :: cmdInsert p rest

/-- `serviceCommandSet.Names` sorts the keys; iterating the set in that order
is modelled by sorting the association list by key. -/
def sortCmds : List (Str × Cmd) → List (Str × Cmd)
  | [] => []
  | p :: rest => cmdInsert p (sortCmds rest)

theorem cmdInsert_perm (p : Str × Cmd) (l : List (Str × Cmd)) :
    List.Perm (cmdInsert p l) (p :: l) := by
  induction l with
  | nil => simp [cmdInsert]
  | cons q rest ih =>
    simp only [cmdInsert]
    split
    · exact List.Perm.refl _
    · exact (List.Perm.cons q ih).trans (List.Perm.swap p q rest)

theorem sortCmds_perm (l : List (Str × Cmd)) : List.Perm (sortCmds l) l := by
  induction l with
  | nil => simp [sortCmds]
  | cons p rest ih =>
    exact (cmdInsert_perm p (sortCmds rest)).trans (List.Perm.cons p ih)

theorem perm_sizeOf_eq {l₁ l₂ : List (Str × Cmd)} (h : List.Perm l₁ l₂) :
    sizeOf l₁ = sizeOf l₂ := by
  induction h with
  | nil => rfl
  | cons x _ ih => simp [ih]
  | swap x y l => simp; omega
  | trans _ _ ih₁ ih₂ => omega

theorem sizeOf_children_lt {name : Str} {cmd : Cmd} {cmds : List (Str × Cmd)}
    (h : (name, cmd) ∈ sortCmds cmds) : sizeOf cmd.children < sizeOf cmds := by
  have hmem : (name, cmd) ∈ cmds := (sortCmds_perm cmds).mem_iff.mp h
  have h₁ : sizeOf (name, cmd) < sizeOf cmds := List.sizeOf_lt_of_mem hmem
  have h₂ : sizeOf cmd.children < sizeOf cmd := by
    cases cmd with
    | node u d hh cs a => simp [Cmd.children]; omega
  simp at h₁
  omega

/-- service.go `appendServiceCommandSetHelp`, producing the word lists that
are then space-joined: iterate names in sorted order, skip admin-only nodes
for non-admin users, recurse into children. -/
def helpWords (cmds : List (Str × Cmd)) (pre : List Str) (admin : Bool) :
    List (List Str) :=
  ((sortCmds cmds).attach.map
    (fun x =>
      if x.1.2.admin ∧ ¬ admin then []
      else if x.1.2.children.isEmpty then [pre ++ [x.1.1]]
      else helpWords x.1.2.children (pre ++ [x.1.1]) admin)).flatten
termination_by sizeOf cmds
decreasing_by
  exact sizeOf_children_lt (show (x.1.1, x.1.2) ∈ sortCmds cmds by rw [Prod.mk.eta]; exact x.2)

/-- The observable outcome of `handleServicePRIVMSG`: which reply is sent,
or which command handler runs with which parameters. -/
inductive SvcOutcome where
  | parseErr (e : Str)
  | getErr (e : GetErr)
  | adminErr
  | subcommands (l : List (List Str))
  | notFound (w : Str)
  | handled (cmd : Cmd) (params : List Str)

/-- service.go `handleServicePRIVMSG` for a user whose `Admin` flag is
`admin`. -/
def handleServicePRIVMSG (admin : Bool) (cmds : List (Str × Cmd)) (text : Str) :
    SvcOutcome :=
  match splitWords text with
  | .error e => .parseErr e
  | .ok words =>
    match cmdGet cmds words with
    | .error e => .getErr e
    | .ok (cmd, params) =>
      if cmd.admin ∧ ¬ admin then .adminErr
      else if ¬ cmd.hasHandle then
        if ¬ cmd.children.isEmpty then .subcommands (helpWords cmd.children words admin)
        else .notFound (words.headD [])
      else .handled cmd params

/-! ## Persistence store (src/db_sqlite.go)

Rows are modelled as Lean structures, tables as lists of rows, and the
database as a record of the four tables.  SQL `NULL` text columns read back
as `""` (`sql.NullString.String`), so they are plain `Str` fields; `nil`
blobs are `Option`.  Each statement of a transaction is modelled as a pure
table transformation; a transaction either commits (all statements applied)
or rolls back (the state is returned unchanged), which is exactly the
`Begin`/`defer Rollback`/`Commit` bracket in the source. -/

/-- A `User` record / table row. -/
structure User where
  id : Int
  username : Str
  password : Str
  admin : Bool
  realname : Str
deriving DecidableEq, Repr, Inhabited

structure SASLPlain where
  username : Str
  password : Str
deriving DecidableEq, Repr, Inhabited

/-- TLS client certificate material; `none` models a nil byte slice. -/
structure SASLExternal where
  certBlob : Option (List Nat)
  privKeyBlob : Option (List Nat)
deriving DecidableEq, Repr, Inhabited

structure SASL where
  mechanism : Str
  plain : SASLPlain
  external : SASLExternal
deriving DecidableEq, Repr, Inhabited

/-- A `Network` record. -/
structure Network where
  id : Int
  name : Str
  addr : Str
  nick : Str
  username : Str
  realname : Str
  pass : Str
  connectCommands : List Str
  sasl : SASL
  enabled : Bool
deriving DecidableEq, Repr, Inhabited

/-- A `Network` table row: the record plus the `user` foreign key. -/
structure NetworkRow where
  userID : Int
  network : Network
deriving DecidableEq, Repr, Inhabited

/-- A `Channel` record (the fields `StoreChannel` persists). -/
structure Channel where
  id : Int
  name : Str
  key : Str
  detached : Bool
  detachedInternalMsgID : Str
  relayDetached : Int
  reattachOn : Int
  detachAfter : Int
  detachOn : Int
deriving DecidableEq, Repr, Inhabited

/-- A `Channel` table row: the record plus the `network` foreign key. -/
structure ChannelRow where
  networkID : Int
  channel : Channel
deriving DecidableEq, Repr, Inhabited

structure DeliveryReceipt where
  id : Int
  target : Str
  client : Str
  internalMsgID : Str
deriving DecidableEq, Repr, Inhabited

/-- A `DeliveryReceipt` table row. -/
structure ReceiptRow where
  networkID : Int
  receipt : DeliveryReceipt
deriving DecidableEq, Repr, Inhabited

/-- The four tables of the SQLite database. -/
structure DBState where
  users : List User
  networks : List NetworkRow
  channels : List ChannelRow
  receipts : List ReceiptRow
deriving DecidableEq, Repr, Inhabited

/-- SQLite's `LastInsertId` for these tables: one more than the largest
rowid in the table. -/
def freshId (ids : List Int) : Int := ids.foldl max 0 + 1

/-- `SqliteDB.StoreUser`: zero id inserts (id written back), non-zero id
updates — by `username`, per `UPDATE User ... WHERE username = :username`;
the `username` and `id` columns themselves are not in the SET list. -/
def StoreUser (st : DBState) (user : User) : DBState × User :=
  if user.id ≠ 0 then
    ({ st with users := st.users.map (fun row =>
        if row.username = user.username then
          { row with password := user.password, admin := user.admin,
                     realname := user.realname }
        else row) },
     user)
  else
    let nid := freshId (st.users.map (·.id))
    ({ st with users := st.users ++ [{ user with id := nid }] },
     { user with id := nid })

def mechPLAIN : Str := "PLAIN".toList
def mechEXTERNAL : Str := "EXTERNAL".toList

def errUnsupportedSASL (mech : Str) : Str :=
  "soju: cannot store network: unsupported SASL mechanism ".toList ++ mech

/-- The SASL preprocessing at the top of `SqliteDB.StoreNetwork`: `PLAIN`
clears the EXTERNAL blobs on the caller's record, an unknown (non-empty,
non-`PLAIN`, non-`EXTERNAL`) mechanism is an error before anything is
written. -/
def storeNetworkSASL (network : Network) : Except Str Network :=
  if network.sasl.mechanism ≠ [] then
    if network.sasl.mechanism = mechPLAIN then
      .ok { network with sasl.external := ⟨none, none⟩ }
    else if network.sasl.mechanism = mechEXTERNAL then
      .ok network
    else
      .error (errUnsupportedSASL network.sasl.mechanism)
  else
    .ok network

/-- The column values written for a network record: the `sasl_plain_*`
columns are NULL (read back as `""`) unless the mechanism is `PLAIN`. -/
def networkColumns (network : Network) : Network :=
  if network.sasl.mechanism = mechPLAIN then network
  else { network with sasl.plain := ⟨[], []⟩ }

/-- `SqliteDB.StoreNetwork`: SASL preprocessing, then insert (zero id, the
`user` column set to `userID`, id written back) or update (non-zero id, by
`WHERE id = :id`; the `user` column is not in the SET list).  The error
return happens before any database write, so the caller's state is
unchanged on error. -/
def StoreNetwork (st : DBState) (userID : Int) (network : Network) :
    Except Str (DBState × Network) :=
  match storeNetworkSASL network with
  | .error e => .error e
  | .ok net =>
    if net.id ≠ 0 then
      .ok ({ st with networks := st.networks.map (fun row =>
              if row.network.id = net.id then { row with network := networkColumns net }
              else row) },
            net)
    else
      let nid := freshId (st.networks.map (·.network.id))
      let net' := { net with id := nid }
      .ok ({ st with networks :=
              st.networks ++ [⟨userID, networkColumns net'⟩] },
            net')

/-- `SqliteDB.StoreChannel`: zero id inserts (id written back), non-zero id
updates by `WHERE id = :id` (the SET list includes the `network` column). -/
def StoreChannel (st : DBState) (networkID : Int) (ch : Channel) :
    DBState × Channel :=
  if ch.id ≠ 0 then
    ({ st with channels := st.channels.map (fun row =>
        if row.channel.id = ch.id then ⟨networkID, ch⟩ else row) },
     ch)
  else
    let nid := freshId (st.channels.map (·.channel.id))
    ({ st with channels := st.channels ++ [⟨networkID, { ch with id := nid }⟩] },
     { ch with id := nid })

/-- Does user `uid` own network `nid` (the JOIN in `DeleteUser`'s subqueries)? -/
def ownsNetwork (networks : List NetworkRow) (uid nid : Int) : Bool :=
  networks.any (fun n => n.network.id = nid ∧ n.userID = uid)

/-- `SqliteDB.DeleteUser`: four DELETE statements inside one transaction
(receipts of the user's networks, channels of the user's networks, the
user's networks, the user row).  `failAt = some k` models statement `k`
failing (or power loss before commit): the transaction rolls back and the
state is returned unchanged with `false`. -/
def DeleteUser (st : DBState) (id : Int) (failAt : Option (Fin 4)) :
    DBState × Bool :=
  match failAt with
  | some _ => (st, false)
  | none =>
    let st₁ :=
      { st with
        receipts := st.receipts.filter (fun r => ¬ ownsNetwork st.networks id r.networkID) }
    let st₂ :=
      { st₁ with
        channels := st₁.channels.filter (fun c => ¬ ownsNetwork st₁.networks id c.networkID) }
    let st₃ := { st₂ with networks := st₂.networks.filter (fun n => n.userID ≠ id) }
    let st₄ := { st₃ with users := st₃.users.filter (fun u => u.id ≠ id) }
    (st₄, true)

/-! # Theorems -/

/-! ## C5/C6: the tokenizer -/

theorem swStep_proj (st : SWState) (r : Char) :
    ((swStep st r).escape, (swStep st r).wordDelim) =
      scanStep (st.escape, st.wordDelim) r := by
  simp only [swStep, scanStep]
  split_ifs <;> simp_all
  all_goals
    obtain ⟨hq, -⟩ := ‹(r = '"' ∨ r = '\'') ∧ st.wordDelim = ' '›
    rcases hq with rfl | rfl <;> simp_all [goIsSpace]

theorem foldl_swStep_proj (s : Str) (st : SWState) :
    ((s.foldl swStep st).escape, (s.foldl swStep st).wordDelim) =
      s.foldl scanStep (st.escape, st.wordDelim) := by
  induction s generalizing st with
  | nil => rfl
  | cons r rest ih =>
    simp only [List.foldl_cons]
    rw [ih, swStep_proj]

/-- C5 — `splitWords` fails exactly on the inputs that end inside a quoted
span (the automaton's `wordDelim` is still a quote) or end with an
unconsumed backslash escape (the automaton's `escape` flag is still set);
the error is `unterminated quoted string` in the first case and
`unterminated backslash sequence` otherwise; on error the `Except` carries
no token list. -/
theorem splitWords_error_iff (s : Str) :
    (∀ e, splitWords s = .error e →
      e = errUnterminatedQuote ∨ e = errUnterminatedBackslash) ∧
    (splitWords s = .error errUnterminatedQuote ↔ (scanQuoteState s).2 ≠ ' ') ∧
    (splitWords s = .error errUnterminatedBackslash ↔
      (scanQuoteState s).2 = ' ' ∧ (scanQuoteState s).1 = true) ∧
    ((∃ w, splitWords s = .ok w) ↔
      (scanQuoteState s).1 = false ∧ (scanQuoteState s).2 = ' ') := by
  have hproj := foldl_swStep_proj s swInit
  have hne : errUnterminatedQuote ≠ errUnterminatedBackslash := by decide
  have hne' : errUnterminatedBackslash ≠ errUnterminatedQuote := hne.symm
  unfold splitWords scanQuoteState
  have hinit : (false, ' ') = (swInit.escape, swInit.wordDelim) := rfl
  rw [hinit, ← hproj]
  set st := s.foldl swStep swInit with hst
  by_cases hd : st.wordDelim = ' '
  · by_cases he : st.escape = true
    · simp [hd, he, hne, hne']
    · simp at he
      simp [hd, he]
  · simp [hd, Ne.symm hd, hne, hne']

/-- C5 witness: the concrete input `"abc` ends inside a double-quoted
span, and `splitWords` indeed reports `unterminated quoted string`. -/
theorem splitWords_error_iff_witness :
    splitWords "\"abc".toList = .error errUnterminatedQuote :=
  ((splitWords_error_iff "\"abc".toList).2.1).mpr (by decide)

/-! ## C1: mode-argument consumption in `applyChannelModes` -/

/-- How many mode arguments one mode letter consumes, per the code: a
membership (prefix) mode always one; a type B channel mode always one; a
type C mode one exactly when setting; type D, type A and unknown letters
none.  `pm` is the sign in force; sign characters consume nothing and
change it. -/
def expectedConsumption (conn : UpstreamConn) : List Char → Option Char → Nat
  | [], _ => 0
  | c :: rest, pm =>
    if c = '+' ∨ c = '-' then expectedConsumption conn rest (some c)
    else
      (if (conn.availableMemberships.find? (fun m => m.mode = c)).isSome then 1
       else
         match conn.availableChannelModes c with
         | some .B => 1
         | some .C => if pm = some '+' then 1 else 0
         | _ => 0) + expectedConsumption conn rest pm

theorem applyChannelModesLoop_count (conn : UpstreamConn) (args : List Str) :
    ∀ (ms : List Char) (pm : Option Char) (na : Nat) (nm : List Nat)
      (ch : UpstreamChannel) (r : UpstreamChannel × List Nat × Nat),
      applyChannelModesLoop conn args ms pm na nm ch = .ok r →
      r.2.2 = na + expectedConsumption conn ms pm := by
  intro ms
  induction ms with
  | nil =>
    intro pm na nm ch r h
    rw [applyChannelModesLoop] at h
    injection h with h
    rw [← h, expectedConsumption]
    simp
  | cons c rest ih =>
    intro pm na nm ch r h
    rw [applyChannelModesLoop] at h
    rw [expectedConsumption]
    by_cases hsign : c = '+' ∨ c = '-'
    · rw [if_pos hsign] at h
      rw [if_pos hsign]
      exact ih (some c) na nm ch r h
    · rw [if_neg hsign] at h
      rw [if_neg hsign]
      by_cases hpm : pm ≠ some '+' ∧ pm ≠ some '-'
      · rw [if_pos hpm] at h
        exact absurd h (by simp)
      · rw [if_neg hpm] at h
        cases hfind : conn.availableMemberships.find? (fun m => m.mode = c) with
        | some mship =>
          simp only [hfind] at h
          simp only [hfind, Option.isSome_some, if_pos trivial]
          by_cases hlen : args.length ≤ na
          · rw [if_pos hlen] at h
            exact absurd h (by simp)
          · rw [if_neg hlen] at h
            have := ih pm (na + 1) (nm ++ [na]) _ r h
            omega
        | none =>
          simp only [hfind] at h
          simp only [hfind, Option.isSome_none, Bool.false_eq_true, if_false]
          cases hmt : conn.availableChannelModes c with
          | none =>
            simp only [hmt] at h
            have := ih pm na nm ch r h
            show r.2.2 = na + (0 + expectedConsumption conn rest pm)
            omega
          | some mt =>
            simp only [hmt] at h
            cases mt with
            | B =>
              rw [if_pos (Or.inl rfl)] at h
              have := ih pm (na + 1) nm _ r h
              show r.2.2 = na + (1 + expectedConsumption conn rest pm)
              omega
            | C =>
              show r.2.2 = na +
                ((if pm = some '+' then 1 else 0) + expectedConsumption conn rest pm)
              by_cases hpm' : pm = some '+'
              · rw [if_pos (Or.inr ⟨rfl, hpm'⟩)] at h
                have := ih pm (na + 1) nm _ r h
                rw [if_pos hpm']
                omega
              · rw [if_neg (by simp [hpm'])] at h
                rw [if_pos (Or.inl rfl)] at h
                have := ih pm na nm _ r h
                rw [if_neg hpm']
                omega
            | D =>
              rw [if_neg (by simp)] at h
              rw [if_pos (Or.inr rfl)] at h
              have := ih pm na nm _ r h
              show r.2.2 = na + (0 + expectedConsumption conn rest pm)
              omega
            | A =>
              rw [if_neg (by simp), if_neg (by simp)] at h
              have := ih pm na nm ch r h
              show r.2.2 = na + (0 + expectedConsumption conn rest pm)
              omega

/-- C1 (amended) — part 1: whenever `applyChannelModes` succeeds, the number
of mode arguments it consumed is exactly the sum, over the mode letters, of:
one for each membership (prefix) mode, one for each type B mode (set or
unset), one for each type C mode being set, and zero for type C being
unset, type D, type A and unknown letters.  Part 2 describes the state
update for each single-letter mode string: membership modes update the
member's membership list (when the member is known) and mark the argument
for marshaling; type B and C modes set or delete the letter in the modes
map with their argument; type D modes set or delete it with an empty
argument; type A and unknown letters change nothing. -/
theorem applyChannelModes_consumption (conn : UpstreamConn) (ch : UpstreamChannel)
    (args : List Str) (sign letter : Char)
    (hsign : sign = '+' ∨ sign = '-')
    (hletter : ¬ (letter = '+' ∨ letter = '-')) :
    (∀ (ms : List Char) (r : UpstreamChannel × List Nat × Nat),
      applyChannelModesLoop conn args ms none 0 [] ch = .ok r →
      r.2.2 = expectedConsumption conn ms none) ∧
    (∀ mship, conn.availableMemberships.find? (fun m => m.mode = letter) = some mship →
      (args = [] → applyChannelModesLoop conn args [sign, letter] none 0 [] ch =
        .error errMissingModeArgument) ∧
      (∀ a as, args = a :: as →
        applyChannelModesLoop conn args [sign, letter] none 0 [] ch =
          .ok (if sign = '+' then updateMember ch a (memAdd conn.availableMemberships mship)
               else updateMember ch a (memRemove mship), [0], 1))) ∧
    (conn.availableMemberships.find? (fun m => m.mode = letter) = none →
      ((conn.availableChannelModes letter = some .B →
        applyChannelModesLoop conn args [sign, letter] none 0 [] ch =
          .ok (if sign = '+' then
                { ch with modes := ch.modes.map (mapInsert letter (args.getD 0 [])) }
               else { ch with modes := ch.modes.map (mapErase letter) }, [], 1)) ∧
      (conn.availableChannelModes letter = some .C →
        applyChannelModesLoop conn args [sign, letter] none 0 [] ch =
          .ok (if sign = '+' then
                ({ ch with modes := ch.modes.map (mapInsert letter (args.getD 0 [])) }, [], 1)
               else ({ ch with modes := ch.modes.map (mapErase letter) }, [], 0))) ∧
      (conn.availableChannelModes letter = some .D →
        applyChannelModesLoop conn args [sign, letter] none 0 [] ch =
          .ok (if sign = '+' then { ch with modes := ch.modes.map (mapInsert letter []) }
               else { ch with modes := ch.modes.map (mapErase letter) }, [], 0)) ∧
      (conn.availableChannelModes letter = some .A →
        applyChannelModesLoop conn args [sign, letter] none 0 [] ch = .ok (ch, [], 0)) ∧
      (conn.availableChannelModes letter = none →
        applyChannelModesLoop conn args [sign, letter] none 0 [] ch = .ok (ch, [], 0)))) := by
  obtain ⟨hl1, hl2⟩ := not_or.mp hletter
  refine ⟨?_, ?_, ?_⟩
  · intro ms r h
    simpa using applyChannelModesLoop_count conn args ms none 0 [] ch r h
  · intro mship hfind
    constructor
    · intro hargs
      subst hargs
      rcases hsign with rfl | rfl <;>
        simp [applyChannelModesLoop, hl1, hl2, hfind]
    · intro a as hargs
      subst hargs
      rcases hsign with rfl | rfl <;>
        simp [applyChannelModesLoop, hl1, hl2, hfind]
  · intro hfind
    refine ⟨?_, ?_, ?_, ?_, ?_⟩ <;> intro hmt <;> rcases hsign with rfl | rfl <;>
      simp [applyChannelModesLoop, hl1, hl2, hfind, hmt]

/-- C1 witness: the standard classification, `+k secret` sets the channel
key consuming one argument, via the amended theorem's type-B clause. -/
theorem applyChannelModes_consumption_witness :
    applyChannelModesLoop ⟨StdMemberships, StdChannelModes⟩ ["secret".toList]
        ['+', 'k'] none 0 [] ⟨[], some []⟩ =
      .ok ({ members := [], modes := some (mapInsert 'k' "secret".toList []) }, [], 1) := by
  have h := (applyChannelModes_consumption ⟨StdMemberships, StdChannelModes⟩
    ⟨[], some []⟩ ["secret".toList] '+' 'k' (Or.inl rfl) (by decide)).2.2
    (by decide) |>.1 (by decide)
  simpa using h

/-- C1 counterexample: with `'b'` classified as type A (the standard ban
list) and no prefix modes, applying `+b` with argument list `["mask"]`
consumes zero arguments — the claim says a type A mode consumes exactly one
when set — and leaves the channel state unchanged. -/
theorem applyChannelModes_typeA_counterexample :
    applyChannelModesCount ⟨[], StdChannelModes⟩ ⟨[], some []⟩
        ['+', 'b'] ["mask".toList] = some 0 ∧
    applyChannelModes ⟨[], StdChannelModes⟩ ⟨[], some []⟩
        ['+', 'b'] ["mask".toList] = .ok (⟨[], some []⟩, []) := by
  constructor <;> rfl

/-! ## C2: the membership list invariant -/

theorem memAddGo_sublist {newM : Membership} :
    ∀ {avail l : List Membership}, l.Sublist avail → newM ∈ avail →
      (memAddGo newM avail l).Sublist avail := by
  intro avail
  induction avail with
  | nil => intro l _ hm; simp at hm
  | cons a rest ih =>
    intro l hl hm
    cases l with
    | nil =>
      rw [memAddGo]
      exact List.singleton_sublist.mpr hm
    | cons x l' =>
      have hmem' : a ≠ newM → newM ∈ rest := by
        intro hne
        rcases List.mem_cons.mp hm with h | h
        · exact absurd h.symm hne
        · exact h
      by_cases hxa : x = a
      · by_cases han : a = newM
        · rw [memAddGo, if_pos hxa, if_pos han]
          exact hl
        · rw [memAddGo, if_pos hxa, if_neg han]
          have hl' : l'.Sublist rest := by
            rcases List.sublist_cons_iff.mp hl with hskip | ⟨r, hx, hr⟩
            · exact (List.sublist_cons_self x l').trans hskip
            · injection hx with h₁ h₂
              subst h₂
              exact hr
          rw [hxa]
          exact (ih hl' (hmem' han)).cons₂ a
      · have hskip : (x :: l').Sublist rest := by
          rcases List.sublist_cons_iff.mp hl with hskip | ⟨r, hx, hr⟩
          · exact hskip
          · injection hx with h₁ h₂
            exact absurd h₁ hxa
        by_cases han : a = newM
        · rw [memAddGo, if_neg hxa, if_pos han]
          rw [← han]
          exact hskip.cons₂ a
        · rw [memAddGo, if_neg hxa, if_neg han]
          exact (ih hskip (hmem' han)).cons a

theorem memAdd_sublist {avail l : List Membership} {newM : Membership}
    (hl : l.Sublist avail) (hm : newM ∈ avail) :
    (memAdd avail newM l).Sublist avail :=
  memAddGo_sublist hl hm

theorem memRemove_sublist (oldM : Membership) (l : List Membership) :
    (memRemove oldM l).Sublist l := by
  induction l with
  | nil => simp [memRemove]
  | cons x l' ih =>
    rw [memRemove]
    split
    · exact List.sublist_cons_self x l'
    · exact ih.cons₂ x

/-- One `Add`/`Remove` call on a membership list. -/
inductive MemOp where
  | add (m : Membership)
  | remove (m : Membership)
deriving DecidableEq, Repr

def applyMemOp (avail : List Membership) (l : List Membership) : MemOp → List Membership
  | .add m => memAdd avail m l
  | .remove m => memRemove m l

/-- A sequence of `Add`/`Remove` calls starting from the empty list. -/
def applyMemOps (avail : List Membership) (ops : List MemOp) : List Membership :=
  ops.foldl (applyMemOp avail) []

theorem foldl_applyMemOp_sublist (avail : List Membership) (ops : List MemOp)
    (hops : ∀ m, MemOp.add m ∈ ops → m ∈ avail) :
    ∀ l, l.Sublist avail → (ops.foldl (applyMemOp avail) l).Sublist avail := by
  induction ops with
  | nil => intro l hl; simpa using hl
  | cons op rest ih =>
    intro l hl
    have hrest : ∀ m, MemOp.add m ∈ rest → m ∈ avail := fun m hm =>
      hops m (List.mem_cons_of_mem op hm)
    simp only [List.foldl_cons]
    apply ih hrest
    cases op with
    | add m => exact memAdd_sublist hl (hops m (List.mem_cons_self _ _))
    | remove m => exact (memRemove_sublist m l).trans hl

theorem nodup_pairwise_indexOf {avail : List Membership} (h : avail.Nodup) :
    avail.Pairwise (fun m₁ m₂ => avail.indexOf m₁ < avail.indexOf m₂) := by
  induction avail with
  | nil => exact List.Pairwise.nil
  | cons a rest ih =>
    rcases List.nodup_cons.mp h with ⟨hna, hrest⟩
    refine List.pairwise_cons.mpr ⟨?_, ?_⟩
    · intro b hb
      have hba : b ≠ a := fun hba => hna (hba ▸ hb)
      rw [List.indexOf_cons_self, List.indexOf_cons_ne _ (Ne.symm hba)]
      exact Nat.succ_pos _
    · refine (ih hrest).imp_of_mem ?_
      intro x y hx hy hxy
      have hxa : x ≠ a := fun hxa => hna (hxa ▸ hx)
      have hya : y ≠ a := fun hya => hna (hya ▸ hy)
      rw [List.indexOf_cons_ne _ (Ne.symm hxa), List.indexOf_cons_ne _ (Ne.symm hya)]
      exact Nat.succ_lt_succ hxy

/-- C2 — starting from the empty list, after any sequence of `Add` and
`Remove` calls whose added memberships come from `availableMemberships`
(assumed duplicate-free, as PREFIX ranks are distinct), the membership list
is a sublist of `availableMemberships` — i.e. strictly sorted by its rank
order — with no duplicates; `Format` without `multi-prefix` returns exactly
the prefix of the head, which is the highest-ranked (lowest-index)
membership present, and with `multi-prefix` returns all prefixes in rank
order. -/
theorem memberships_invariant (avail : List Membership) (ops : List MemOp)
    (caps : Str → Bool) (hnd : avail.Nodup)
    (hops : ∀ m, MemOp.add m ∈ ops → m ∈ avail) :
    (applyMemOps avail ops).Sublist avail ∧
    (applyMemOps avail ops).Nodup ∧
    (applyMemOps avail ops).Pairwise
      (fun m₁ m₂ => avail.indexOf m₁ < avail.indexOf m₂) ∧
    (caps multiPrefixCap = false →
      ∀ m t, applyMemOps avail ops = m :: t →
        memFormat caps (applyMemOps avail ops) = [m.pfx] ∧
        ∀ m' ∈ applyMemOps avail ops, avail.indexOf m ≤ avail.indexOf m') ∧
    (caps multiPrefixCap = true →
      memFormat caps (applyMemOps avail ops) = (applyMemOps avail ops).map (·.pfx)) := by
  have hsub : (applyMemOps avail ops).Sublist avail :=
    foldl_applyMemOp_sublist avail ops hops [] (List.nil_sublist avail)
  have hpw : (applyMemOps avail ops).Pairwise
      (fun m₁ m₂ => avail.indexOf m₁ < avail.indexOf m₂) :=
    (nodup_pairwise_indexOf hnd).sublist hsub
  refine ⟨hsub, hsub.nodup hnd, hpw, ?_, ?_⟩
  · intro hcaps m t hl
    constructor
    · simp [memFormat, hcaps, hl]
    · intro m' hm'
      rw [hl] at hm' hpw
      rcases List.mem_cons.mp hm' with rfl | hm'
      · exact Nat.le_refl _
      · exact Nat.le_of_lt ((List.pairwise_cons.mp hpw).1 m' hm')
  · intro hcaps
    simp [memFormat, hcaps]

/-- C2 witness: the standard memberships, the call sequence
`Add o; Add v; Add q; Remove v; Add h` and a `multi-prefix`-less cap set. -/
theorem memberships_invariant_witness :
    (applyMemOps StdMemberships
        [.add ⟨'o', '@'⟩, .add ⟨'v', '+'⟩, .add ⟨'q', '~'⟩,
         .remove ⟨'v', '+'⟩, .add ⟨'h', '%'⟩]).Sublist StdMemberships ∧
    applyMemOps StdMemberships
        [.add ⟨'o', '@'⟩, .add ⟨'v', '+'⟩, .add ⟨'q', '~'⟩,
         .remove ⟨'v', '+'⟩, .add ⟨'h', '%'⟩] =
      [⟨'q', '~'⟩, ⟨'o', '@'⟩, ⟨'h', '%'⟩] ∧
    memFormat (fun _ => false)
      (applyMemOps StdMemberships
        [.add ⟨'o', '@'⟩, .add ⟨'v', '+'⟩, .add ⟨'q', '~'⟩,
         .remove ⟨'v', '+'⟩, .add ⟨'h', '%'⟩]) = ['~'] := by
  have h := memberships_invariant StdMemberships
    [.add ⟨'o', '@'⟩, .add ⟨'v', '+'⟩, .add ⟨'q', '~'⟩,
     .remove ⟨'v', '+'⟩, .add ⟨'h', '%'⟩]
    (fun _ => false) (by decide)
    (by
      intro m hm
      simp at hm
      rcases hm with rfl | rfl | rfl | rfl <;> decide)
  refine ⟨h.1, by decide, ?_⟩
  exact (h.2.2.2.1 rfl ⟨'q', '~'⟩ [⟨'o', '@'⟩, ⟨'h', '%'⟩] (by decide)).1

/-- C6 — the spec's literal scenario S1: tokenizing
`sasl set-plain net1 "al ice" it\ is` yields exactly
`["sasl", "set-plain", "net1", "al ice", "it is"]`. -/
theorem splitWords_scenario_S1 :
    splitWords "sasl set-plain net1 \"al ice\" it\\ is".toList =
      .ok ["sasl".toList, "set-plain".toList, "net1".toList,
           "al ice".toList, "it is".toList] := by
  rfl

/-! ## C4: service command dispatch -/

theorem lookupCmd_of_nodup {cmds : List (Str × Cmd)} {k : Str} {c : Cmd}
    (hkeys : (cmds.map Prod.fst).Nodup) (hmem : (k, c) ∈ cmds) :
    lookupCmd k cmds = some c := by
  induction cmds with
  | nil => simp at hmem
  | cons p rest ih =>
    obtain ⟨k', c'⟩ := p
    rw [List.map_cons, List.nodup_cons] at hkeys
    rcases List.mem_cons.mp hmem with heq | hmem'
    · injection heq with h₁ h₂
      subst h₁; subst h₂
      rw [lookupCmd, if_pos rfl]
    · rw [lookupCmd]
      have hk : k' ≠ k := by
        intro hk
        subst hk
        exact hkeys.1 (List.mem_map.mpr ⟨(k', c), hmem', rfl⟩)
      rw [if_neg hk]
      exact ih hkeys.2 hmem'

theorem nodup_keys_unique {cmds : List (Str × Cmd)} {k : Str} {c₁ c₂ : Cmd}
    (hkeys : (cmds.map Prod.fst).Nodup)
    (h₁ : (k, c₁) ∈ cmds) (h₂ : (k, c₂) ∈ cmds) : c₁ = c₂ := by
  have e₁ := lookupCmd_of_nodup hkeys h₁
  have e₂ := lookupCmd_of_nodup hkeys h₂
  rw [e₁] at e₂
  injection e₂

/-- Every line of `appendServiceCommandSetHelp`'s output extends `pre` by the
name of a sibling that passed the admin filter. -/
theorem helpWords_line_shape :
    ∀ (sz : Nat) (cmds : List (Str × Cmd)), sizeOf cmds ≤ sz →
      ∀ (pre : List Str) (admin : Bool), ∀ l ∈ helpWords cmds pre admin,
        ∃ n c, (n, c) ∈ cmds ∧ ¬ (c.admin = true ∧ admin = false) ∧
          (pre ++ [n]).IsPrefix l := by
  intro sz
  induction sz with
  | zero =>
    intro cmds hsz
    exact absurd hsz (by cases cmds <;> simp)
  | succ m ih =>
    intro cmds hsz pre admin l hl
    rw [helpWords, List.mem_flatten] at hl
    obtain ⟨s, hs, hls⟩ := hl
    rw [List.mem_map] at hs
    obtain ⟨⟨⟨nm, c⟩, hmem⟩, -, rfl⟩ := hs
    simp only [] at hls
    have hcs : (nm, c) ∈ cmds := (sortCmds_perm cmds).mem_iff.mp hmem
    by_cases hadm : c.admin = true ∧ ¬ admin = true
    · rw [if_pos hadm] at hls
      simp at hls
    · rw [if_neg hadm] at hls
      have hadm' : ¬ (c.admin = true ∧ admin = false) := by
        intro ⟨ha, hb⟩
        exact hadm ⟨ha, by simp [hb]⟩
      by_cases hch : c.children.isEmpty = true
      · rw [if_pos hch] at hls
        rcases List.mem_singleton.mp hls with rfl
        exact ⟨nm, c, hcs, hadm', List.prefix_rfl⟩
      · rw [if_neg hch] at hls
        have hlt : sizeOf c.children ≤ m := by
          have := sizeOf_children_lt hmem
          omega
        obtain ⟨n', c', _, _, hpre'⟩ :=
          ih c.children hlt (pre ++ [nm]) admin l hls
        exact ⟨nm, c, hcs, hadm',
          (List.prefix_append (pre ++ [nm]) [n']).trans hpre'⟩

/-- C4 — service dispatch: (1) a token equal to a command name selects that
command even when it is also a prefix of sibling names; (2) a token that is
a strict prefix of exactly one sibling name resolves exactly as the full
name does, with the same remaining parameters; (3) a token that is a prefix
of two or more sibling names yields the `ambiguous` error; (4) an
admin-only command invoked by a non-admin user produces the admin error
reply, so its handler does not run; (5) for a non-admin user, no line of
the help output begins with the name of an admin-only command. -/
theorem service_dispatch (cmds : List (Str × Cmd)) :
    (∀ name cmd, lookupCmd name cmds = some cmd →
      cmdGet cmds [name] = .ok (cmd, [])) ∧
    (∀ tok full cmd rest, (cmds.map Prod.fst).Nodup →
      lookupCmd tok cmds = none →
      cmds.filter (fun p => tok.isPrefixOf p.1) = [(full, cmd)] →
      cmdGet cmds (tok :: rest) = cmdGet cmds (full :: rest)) ∧
    (∀ tok rest, lookupCmd tok cmds = none →
      2 ≤ (cmds.filter (fun p => tok.isPrefixOf p.1)).length →
      cmdGet cmds (tok :: rest) = .error (.ambiguous tok)) ∧
    (∀ text words cmd params, splitWords text = .ok words →
      cmdGet cmds words = .ok (cmd, params) → cmd.admin = true →
      handleServicePRIVMSG false cmds text = .adminErr) ∧
    (∀ name c pre, (cmds.map Prod.fst).Nodup → (name, c) ∈ cmds →
      c.admin = true →
      ∀ l ∈ helpWords cmds pre false, ¬ (pre ++ [name]).IsPrefix l) := by
  refine ⟨?_, ?_, ?_, ?_, ?_⟩
  · intro name cmd hlook
    rw [cmdGet, hlook]
    simp
  · intro tok full cmd rest hkeys hnone hfilter
    have hmem : (full, cmd) ∈ cmds := by
      have : (full, cmd) ∈ cmds.filter (fun p => tok.isPrefixOf p.1) := by
        rw [hfilter]; exact List.mem_singleton.mpr rfl
      exact List.mem_of_mem_filter this
    have hfull : lookupCmd full cmds = some cmd := lookupCmd_of_nodup hkeys hmem
    rw [cmdGet, hnone, hfilter, cmdGet, hfull]
  · intro tok rest hnone hlen
    rw [cmdGet, hnone]
    cases hf : cmds.filter (fun p => tok.isPrefixOf p.1) with
    | nil => rw [hf] at hlen; simp at hlen
    | cons a t =>
      cases t with
      | nil => rw [hf] at hlen; simp at hlen
      | cons b t' => rfl
  · intro text words cmd params hsplit hget hadmin
    rw [handleServicePRIVMSG, hsplit]
    simp only [hget]
    simp [hadmin]
  · intro name c pre hkeys hmem hadmin l hl hcontra
    obtain ⟨n', c', hmem', hadm', hpre'⟩ :=
      helpWords_line_shape (sizeOf cmds) cmds (Nat.le_refl _) pre false l hl
    have hlen : (pre ++ [name]).length = (pre ++ [n']).length := by simp
    have heq : pre ++ [name] = pre ++ [n'] := by
      rcases List.prefix_or_prefix_of_prefix hcontra hpre' with hp | hp
      · exact hp.eq_of_length hlen
      · exact (hp.eq_of_length hlen.symm).symm
    have hname : name = n' := by
      have := List.append_cancel_left heq
      injection this
    subst hname
    have : c = c' := nodup_keys_unique hkeys hmem hmem'
    subst this
    exact hadm' ⟨hadmin, rfl⟩

/-- C4 witness: a concrete command set containing `network` (with children
`create`/`status`), `nets` and the admin-only `server` command, exercising
all five dispatch clauses. -/
theorem service_dispatch_witness :
    (cmdGet
        [("network".toList, Cmd.node [] [] false
            [("create".toList, Cmd.node [] [] true [] false),
             ("status".toList, Cmd.node [] [] true [] false)] false),
         ("nets".toList, Cmd.node [] [] true [] false),
         ("server".toList, Cmd.node [] [] true [] true)]
        ["network".toList] =
      .ok (Cmd.node [] [] false
            [("create".toList, Cmd.node [] [] true [] false),
             ("status".toList, Cmd.node [] [] true [] false)] false, [])) ∧
    (cmdGet
        [("network".toList, Cmd.node [] [] false
            [("create".toList, Cmd.node [] [] true [] false),
             ("status".toList, Cmd.node [] [] true [] false)] false),
         ("nets".toList, Cmd.node [] [] true [] false),
         ("server".toList, Cmd.node [] [] true [] true)]
        ["serv".toList, "x".toList] =
      cmdGet
        [("network".toList, Cmd.node [] [] false
            [("create".toList, Cmd.node [] [] true [] false),
             ("status".toList, Cmd.node [] [] true [] false)] false),
         ("nets".toList, Cmd.node [] [] true [] false),
         ("server".toList, Cmd.node [] [] true [] true)]
        ["server".toList, "x".toList]) ∧
    (cmdGet
        [("network".toList, Cmd.node [] [] false
            [("create".toList, Cmd.node [] [] true [] false),
             ("status".toList, Cmd.node [] [] true [] false)] false),
         ("nets".toList, Cmd.node [] [] true [] false),
         ("server".toList, Cmd.node [] [] true [] true)]
        ["net".toList] = .error (.ambiguous "net".toList)) ∧
    (handleServicePRIVMSG false
        [("network".toList, Cmd.node [] [] false
            [("create".toList, Cmd.node [] [] true [] false),
             ("status".toList, Cmd.node [] [] true [] false)] false),
         ("nets".toList, Cmd.node [] [] true [] false),
         ("server".toList, Cmd.node [] [] true [] true)]
        "server".toList = .adminErr) ∧
    (∀ l ∈ helpWords
        [("network".toList, Cmd.node [] [] false
            [("create".toList, Cmd.node [] [] true [] false),
             ("status".toList, Cmd.node [] [] true [] false)] false),
         ("nets".toList, Cmd.node [] [] true [] false),
         ("server".toList, Cmd.node [] [] true [] true)] [] false,
      ¬ ([] ++ ["server".toList]).IsPrefix l) := by
  have h := service_dispatch
    [("network".toList, Cmd.node [] [] false
        [("create".toList, Cmd.node [] [] true [] false),
         ("status".toList, Cmd.node [] [] true [] false)] false),
     ("nets".toList, Cmd.node [] [] true [] false),
     ("server".toList, Cmd.node [] [] true [] true)]
  refine ⟨?_, ?_, ?_, ?_, ?_⟩
  · exact h.1 "network".toList _ rfl
  · exact h.2.1 "serv".toList "server".toList _ ["x".toList]
      (by decide) rfl rfl
  · exact h.2.2.1 "net".toList [] rfl (by rfl)
  · exact h.2.2.2.1 "server".toList ["server".toList]
      (Cmd.node [] [] true [] true) [] rfl rfl rfl
  · exact h.2.2.2.2 "server".toList (Cmd.node [] [] true [] true) []
      (by decide)
      (List.Mem.tail _ (List.Mem.tail _ (List.Mem.head _)))
      rfl

/-! ## C7: the delete-user cascade -/

/-- C7 — when `DeleteUser` succeeds, the database holds no Network row owned
by the user, no Channel or DeliveryReceipt row belonging to any of the
user's (pre-deletion) networks, and no User row with that id; when it
fails, the transaction rolls back and all four tables are exactly as
before. -/
theorem deleteUser_cascade (st : DBState) (id : Int) (failAt : Option (Fin 4)) :
    ((DeleteUser st id failAt).2 = true →
      (∀ n ∈ (DeleteUser st id failAt).1.networks, n.userID ≠ id) ∧
      (∀ c ∈ (DeleteUser st id failAt).1.channels,
        ∀ n ∈ st.networks, n.userID = id → c.networkID ≠ n.network.id) ∧
      (∀ r ∈ (DeleteUser st id failAt).1.receipts,
        ∀ n ∈ st.networks, n.userID = id → r.networkID ≠ n.network.id) ∧
      (∀ u ∈ (DeleteUser st id failAt).1.users, u.id ≠ id)) ∧
    ((DeleteUser st id failAt).2 = false → (DeleteUser st id failAt).1 = st) := by
  cases failAt with
  | some k => simp [DeleteUser]
  | none =>
    refine ⟨fun _ => ⟨?_, ?_, ?_, ?_⟩, by simp [DeleteUser]⟩
    · intro n hn
      simp only [DeleteUser, List.mem_filter] at hn
      simpa using hn.2
    · intro c hc n hn hid heq
      simp only [DeleteUser, List.mem_filter] at hc
      have : ownsNetwork st.networks id c.networkID = true := by
        simp only [ownsNetwork, List.any_eq_true]
        exact ⟨n, hn, by simp [heq, hid]⟩
      simp [this] at hc
    · intro r hr n hn hid heq
      simp only [DeleteUser, List.mem_filter] at hr
      have : ownsNetwork st.networks id r.networkID = true := by
        simp only [ownsNetwork, List.any_eq_true]
        exact ⟨n, hn, by simp [heq, hid]⟩
      simp [this] at hr
    · intro u hu
      simp only [DeleteUser, List.mem_filter] at hu
      simpa using hu.2

/-- C7 witness: a two-user database where user 1 owns network 10 with a
channel and a receipt; deleting user 1 succeeds and leaves no network owned
by user 1, while a simulated failure rolls everything back. -/
theorem deleteUser_cascade_witness :
    (∀ n ∈ (DeleteUser
        ⟨[⟨1, "alice".toList, [], false, []⟩, ⟨2, "bob".toList, [], false, []⟩],
         [⟨1, { (default : Network) with id := 10 }⟩],
         [⟨10, { (default : Channel) with id := 20 }⟩],
         [⟨10, ⟨30, "t".toList, [], "m".toList⟩⟩]⟩
        1 none).1.networks, n.userID ≠ 1) ∧
    (DeleteUser
        ⟨[⟨1, "alice".toList, [], false, []⟩, ⟨2, "bob".toList, [], false, []⟩],
         [⟨1, { (default : Network) with id := 10 }⟩],
         [⟨10, { (default : Channel) with id := 20 }⟩],
         [⟨10, ⟨30, "t".toList, [], "m".toList⟩⟩]⟩
        1 (some 2)).1 =
      ⟨[⟨1, "alice".toList, [], false, []⟩, ⟨2, "bob".toList, [], false, []⟩],
       [⟨1, { (default : Network) with id := 10 }⟩],
       [⟨10, { (default : Channel) with id := 20 }⟩],
       [⟨10, ⟨30, "t".toList, [], "m".toList⟩⟩]⟩ :=
  ⟨((deleteUser_cascade
      ⟨[⟨1, "alice".toList, [], false, []⟩, ⟨2, "bob".toList, [], false, []⟩],
       [⟨1, { (default : Network) with id := 10 }⟩],
       [⟨10, { (default : Channel) with id := 20 }⟩],
       [⟨10, ⟨30, "t".toList, [], "m".toList⟩⟩]⟩
      1 none).1 rfl).1,
   (deleteUser_cascade
      ⟨[⟨1, "alice".toList, [], false, []⟩, ⟨2, "bob".toList, [], false, []⟩],
       [⟨1, { (default : Network) with id := 10 }⟩],
       [⟨10, { (default : Channel) with id := 20 }⟩],
       [⟨10, ⟨30, "t".toList, [], "m".toList⟩⟩]⟩
      1 (some 2)).2 rfl⟩

/-! ## C8: store = insert-or-update on embedded id -/

/-- C8 counterexample: with users `alice` (id 1) and `bob` (id 2), calling
`StoreUser` with the record `{id := 1, username := "bob", password :=
"newpw"}` leaves the row identified by id 1 untouched and instead updates
the row with id 2, because the UPDATE statement selects by `username`, not
by the embedded id. -/
theorem storeUser_updates_by_username_counterexample :
    (StoreUser
        ⟨[⟨1, "alice".toList, "pa".toList, false, []⟩,
          ⟨2, "bob".toList, "pb".toList, false, []⟩], [], [], []⟩
        ⟨1, "bob".toList, "newpw".toList, false, []⟩).1.users =
      [⟨1, "alice".toList, "pa".toList, false, []⟩,
       ⟨2, "bob".toList, "newpw".toList, false, []⟩] := by
  rfl

theorem storeNetworkSASL_ok_of_supported {n : Network}
    (h : n.sasl.mechanism = [] ∨ n.sasl.mechanism = mechPLAIN ∨
      n.sasl.mechanism = mechEXTERNAL) :
    ∃ net, storeNetworkSASL n = .ok net ∧ net.id = n.id := by
  rcases h with h | h | h
  · exact ⟨n, by simp [storeNetworkSASL, h], rfl⟩
  · refine ⟨{ n with sasl.external := ⟨none, none⟩ }, ?_, rfl⟩
    have hne : n.sasl.mechanism ≠ [] := by rw [h]; decide
    unfold storeNetworkSASL
    rw [if_pos hne, if_pos h]
  · refine ⟨n, ?_, rfl⟩
    have hne : n.sasl.mechanism ≠ [] := by rw [h]; decide
    have hnp : ¬ n.sasl.mechanism = mechPLAIN := by rw [h]; decide
    unfold storeNetworkSASL
    rw [if_pos hne, if_neg hnp, if_pos h]

/-- C8 (amended) — `StoreNetwork` and `StoreChannel` with a zero embedded id
insert a fresh row and write the generated id back, and with a non-zero id
update exactly the rows bearing that id, leaving every other row unchanged.
For `StoreNetwork` this holds for every supported SASL mechanism (empty,
`PLAIN` or `EXTERNAL`), the persisted record being the SASL-preprocessed
one (same id); an unsupported mechanism is an error and nothing is
inserted or updated.  `StoreUser` inserts the same way, but its update
selects the row by `username` rather than by the embedded id (rows with a
different username are unchanged, whatever their id). -/
theorem store_insert_or_update (st : DBState) (u : User) (userID : Int)
    (n : Network) (networkID : Int) (ch : Channel) :
    (u.id = 0 →
      (StoreUser st u).1.users =
        st.users ++ [{ u with id := freshId (st.users.map (·.id)) }] ∧
      (StoreUser st u).2.id = freshId (st.users.map (·.id))) ∧
    (u.id ≠ 0 →
      (∀ row ∈ st.users, row.username ≠ u.username →
        row ∈ (StoreUser st u).1.users) ∧
      (∀ row ∈ st.users, row.username = u.username →
        { row with password := u.password, admin := u.admin,
                   realname := u.realname } ∈ (StoreUser st u).1.users)) ∧
    (n.id = 0 →
      (n.sasl.mechanism = [] ∨ n.sasl.mechanism = mechPLAIN ∨
        n.sasl.mechanism = mechEXTERNAL) →
      ∃ net, storeNetworkSASL n = .ok net ∧ net.id = 0 ∧
        StoreNetwork st userID n =
          .ok ({ st with networks := st.networks ++
                  [⟨userID, networkColumns
                      { net with id := freshId (st.networks.map (·.network.id)) }⟩] },
               { net with id := freshId (st.networks.map (·.network.id)) })) ∧
    (n.id ≠ 0 →
      (n.sasl.mechanism = [] ∨ n.sasl.mechanism = mechPLAIN ∨
        n.sasl.mechanism = mechEXTERNAL) →
      ∃ net st', storeNetworkSASL n = .ok net ∧ net.id = n.id ∧
        StoreNetwork st userID n = .ok (st', net) ∧
        (∀ row ∈ st.networks, row.network.id ≠ n.id → row ∈ st'.networks) ∧
        (∀ row ∈ st.networks, row.network.id = n.id →
          ⟨row.userID, networkColumns net⟩ ∈ st'.networks)) ∧
    (¬ (n.sasl.mechanism = [] ∨ n.sasl.mechanism = mechPLAIN ∨
        n.sasl.mechanism = mechEXTERNAL) →
      StoreNetwork st userID n = .error (errUnsupportedSASL n.sasl.mechanism)) ∧
    (ch.id = 0 →
      (StoreChannel st networkID ch).1.channels =
        st.channels ++
          [⟨networkID, { ch with id := freshId (st.channels.map (·.channel.id)) }⟩] ∧
      (StoreChannel st networkID ch).2.id =
        freshId (st.channels.map (·.channel.id))) ∧
    (ch.id ≠ 0 →
      (∀ row ∈ st.channels, row.channel.id ≠ ch.id →
        row ∈ (StoreChannel st networkID ch).1.channels) ∧
      (∀ row ∈ st.channels, row.channel.id = ch.id →
        (⟨networkID, ch⟩ : ChannelRow) ∈ (StoreChannel st networkID ch).1.channels)) := by
  refine ⟨?_, ?_, ?_, ?_, ?_, ?_, ?_⟩
  · intro h0
    simp [StoreUser, h0]
  · intro hne
    constructor
    · intro row hrow hname
      simp only [StoreUser, if_pos hne]
      exact List.mem_map.mpr ⟨row, hrow, by simp [hname]⟩
    · intro row hrow hname
      simp only [StoreUser, if_pos hne]
      exact List.mem_map.mpr ⟨row, hrow, by simp [hname]⟩
  · intro h0 hmech
    obtain ⟨net, hpre, hid⟩ := storeNetworkSASL_ok_of_supported hmech
    have hnid : net.id = 0 := by rw [hid, h0]
    refine ⟨net, hpre, hnid, ?_⟩
    simp [StoreNetwork, hpre, hnid]
  · intro hne hmech
    obtain ⟨net, hpre, hid⟩ := storeNetworkSASL_ok_of_supported hmech
    have hnid : net.id ≠ 0 := by rw [hid]; exact hne
    refine ⟨net, { st with networks := st.networks.map (fun row =>
        if row.network.id = net.id then ⟨row.userID, networkColumns net⟩ else row) },
      hpre, hid, ?_, ?_, ?_⟩
    · simp [StoreNetwork, hpre, hnid]
    · intro row hrow hrid
      refine List.mem_map.mpr ⟨row, hrow, ?_⟩
      rw [if_neg (by rw [hid]; exact hrid)]
    · intro row hrow hrid
      refine List.mem_map.mpr ⟨row, hrow, ?_⟩
      rw [if_pos (by rw [hid]; exact hrid)]
  · intro hmech
    push_neg at hmech
    obtain ⟨hne, hnp, hnx⟩ := hmech
    have hpre : storeNetworkSASL n = .error (errUnsupportedSASL n.sasl.mechanism) := by
      simp [storeNetworkSASL, hne, hnp, hnx]
    simp [StoreNetwork, hpre]
  · intro h0
    simp [StoreChannel, h0]
  · intro hne
    constructor
    · intro row hrow hid
      simp only [StoreChannel, if_pos hne]
      exact List.mem_map.mpr ⟨row, hrow, by simp [hid]⟩
    · intro row hrow hid
      simp only [StoreChannel, if_pos hne]
      exact List.mem_map.mpr ⟨row, hrow, by simp [hid]⟩

/-- C8 witness: inserting a channel with id 0 into a one-row table appends
a row with the fresh id 43 and writes 43 back into the record; updating a
network record with id 9 and SASL mechanism `EXTERNAL` rewrites the row
bearing id 9 with the preprocessed record. -/
theorem store_insert_or_update_witness :
    ((StoreChannel
        ⟨[], [], [⟨7, { (default : Channel) with id := 42 }⟩], []⟩ 7
        { (default : Channel) with id := 0 }).1.channels =
      [⟨7, { (default : Channel) with id := 42 }⟩,
       ⟨7, { (default : Channel) with id := 43 }⟩] ∧
    (StoreChannel
        ⟨[], [], [⟨7, { (default : Channel) with id := 42 }⟩], []⟩ 7
        { (default : Channel) with id := 0 }).2.id = 43) ∧
    (∃ net st',
      StoreNetwork ⟨[], [⟨5, { (default : Network) with
          id := 9,
          sasl := ⟨mechEXTERNAL, ⟨[], []⟩, ⟨some [1], some [2]⟩⟩ }⟩], [], []⟩ 5 { (default : Network) with
          id := 9,
          sasl := ⟨mechEXTERNAL, ⟨[], []⟩, ⟨some [1], some [2]⟩⟩ } = .ok (st', net) ∧
      net.id = 9 ∧
      (⟨5, networkColumns net⟩ : NetworkRow) ∈ st'.networks) := by
  constructor
  · have h := (store_insert_or_update
      ⟨[], [], [⟨7, { (default : Channel) with id := 42 }⟩], []⟩
      default 0 default 7 { (default : Channel) with id := 0 }).2.2.2.2.2.1 rfl
    exact ⟨by rw [h.1]; rfl, by rw [h.2]; rfl⟩
  · obtain ⟨net, st', hpre, hid, heq, hothers, hupd⟩ :=
      (store_insert_or_update ⟨[], [⟨5, { (default : Network) with
          id := 9,
          sasl := ⟨mechEXTERNAL, ⟨[], []⟩, ⟨some [1], some [2]⟩⟩ }⟩], [], []⟩ default 5 { (default : Network) with
          id := 9,
          sasl := ⟨mechEXTERNAL, ⟨[], []⟩, ⟨some [1], some [2]⟩⟩ } 7 default).2.2.2.1
        (by decide) (Or.inr (Or.inr rfl))
    exact ⟨net, st', heq, hid.trans rfl,
      hupd ⟨5, { (default : Network) with
          id := 9,
          sasl := ⟨mechEXTERNAL, ⟨[], []⟩, ⟨some [1], some [2]⟩⟩ }⟩ (List.mem_cons_self _ _) rfl⟩

/-! ## C9: command node with neither handler nor children -/

/-- C9 — the code's behavior at the failing input: dispatching the single
token `x` against a command set whose node `x` has neither a handler nor
children reaches the node and answers with a "not found" reply; there is no
construction-time rejection in the source (the source comments this path as
a bug but keeps it).  The spec instead requires such a node to be rejected
when the tree is built. -/
theorem orphan_node_answered_not_found :
    handleServicePRIVMSG true [("x".toList, Cmd.node [] [] false [] false)]
      "x".toList = .notFound "x".toList := by
  rfl

/-! ## C10: StoreNetwork's SASL side effects -/

/-- C10 — `StoreNetwork` on a record with mechanism `PLAIN` clears the
record's `SASL.External` blobs (the caller's record comes back with both
`nil`, every field other than the external blobs — and, on insert, the
generated id — unchanged) and persists it, every row added to the table
carrying nil blobs; on a mechanism other than `""`, `PLAIN` and `EXTERNAL`
it returns the unsupported-mechanism error, which in the code happens
before any database write or record mutation. -/
theorem storeNetwork_sasl_effects (st : DBState) (userID : Int) (n : Network) :
    (n.sasl.mechanism = mechPLAIN →
      StoreNetwork st userID n =
        .ok (if n.id ≠ 0 then
              ({ st with networks := st.networks.map (fun row =>
                  if row.network.id = n.id then
                    ⟨row.userID, networkColumns { n with sasl.external := ⟨none, none⟩ }⟩
                  else row) },
               { n with sasl.external := ⟨none, none⟩ })
             else
              ({ st with networks := st.networks ++
                  [⟨userID, networkColumns
                      { n with id := freshId (st.networks.map (·.network.id)),
                               sasl.external := ⟨none, none⟩ }⟩] },
               { n with id := freshId (st.networks.map (·.network.id)),
                        sasl.external := ⟨none, none⟩ }))) ∧
    (n.sasl.mechanism ≠ [] → n.sasl.mechanism ≠ mechPLAIN →
      n.sasl.mechanism ≠ mechEXTERNAL →
      StoreNetwork st userID n = .error (errUnsupportedSASL n.sasl.mechanism)) := by
  constructor
  · intro hm
    have hne : n.sasl.mechanism ≠ [] := by rw [hm]; decide
    have hpre : storeNetworkSASL n = .ok { n with sasl.external := ⟨none, none⟩ } := by
      unfold storeNetworkSASL
      rw [if_pos hne, if_pos hm]
    by_cases h0 : n.id ≠ 0
    · simp [StoreNetwork, hpre, h0]
    · simp only [ne_eq, not_not] at h0
      simp [StoreNetwork, hpre, h0]
  · intro hne hnp hnx
    have hpre : storeNetworkSASL n = .error (errUnsupportedSASL n.sasl.mechanism) := by
      simp [storeNetworkSASL, hne, hnp, hnx]
    simp [StoreNetwork, hpre]

/-- C10 witness: a PLAIN record with stale EXTERNAL blobs comes back with
both blobs nil, and the mechanism `CRAM-MD5` is rejected. -/
theorem storeNetwork_sasl_effects_witness :
    StoreNetwork ⟨[], [], [], []⟩ 5
        { (default : Network) with
          id := 9,
          sasl := ⟨mechPLAIN, ⟨"u".toList, "p".toList⟩, ⟨some [1], some [2]⟩⟩ } =
      .ok (⟨[], [], [], []⟩,
        { (default : Network) with
          id := 9,
          sasl := ⟨mechPLAIN, ⟨"u".toList, "p".toList⟩, ⟨none, none⟩⟩ }) ∧
    StoreNetwork ⟨[], [], [], []⟩ 5
        { (default : Network) with
          sasl := ⟨"CRAM-MD5".toList, ⟨[], []⟩, ⟨none, none⟩⟩ } =
      .error (errUnsupportedSASL "CRAM-MD5".toList) := by
  constructor
  · have h := (storeNetwork_sasl_effects ⟨[], [], [], []⟩ 5
      { (default : Network) with
        id := 9,
        sasl := ⟨mechPLAIN, ⟨"u".toList, "p".toList⟩, ⟨some [1], some [2]⟩⟩ }).1 rfl
    rw [h]
    rfl
  · exact (storeNetwork_sasl_effects ⟨[], [], [], []⟩ 5
      { (default : Network) with
        sasl := ⟨"CRAM-MD5".toList, ⟨[], []⟩, ⟨none, none⟩⟩ }).2
      (by decide) (by decide) (by decide)

/-! ## C3: the 512-byte limit in `sendNames` and `Join` -/

theorem namesBuf_append (buf : List Str) (s : Str) :
    namesBuf (buf ++ [s]) =
      if namesBuf buf = [] then s else namesBuf buf ++ [' '] ++ s := by
  unfold namesBuf
  rw [List.foldl_append]
  rfl

/-- The builder is empty exactly when every entry written to it was empty. -/
theorem namesBuf_eq_nil {buf : List Str} (h : namesBuf buf = []) :
    ∀ s ∈ buf, s = [] := by
  suffices hgen : ∀ (l : List Str) (b : Str),
      l.foldl (fun b s => if b = [] then s else b ++ [' '] ++ s) b = [] →
      b = [] ∧ ∀ s ∈ l, s = [] by
    exact (hgen buf [] h).2
  intro l
  induction l with
  | nil => intro b hb; exact ⟨hb, by simp⟩
  | cons s rest ih =>
    intro b hb
    rw [List.foldl_cons] at hb
    obtain ⟨hstep, hrest⟩ := ih _ hb
    by_cases hbe : b = []
    · rw [if_pos hbe] at hstep
      refine ⟨hbe, ?_⟩
      intro x hx
      rcases List.mem_cons.mp hx with rfl | hx'
      · exact hstep
      · exact hrest x hx'
    · rw [if_neg hbe] at hstep
      exact absurd hstep (by simp)

theorem sendNamesChunks_flatten (m : Nat) :
    ∀ (es buf : List Str), (∀ s ∈ es, s ≠ []) → (∀ s ∈ buf, s ≠ []) →
      (sendNamesChunks m buf es).flatten = buf ++ es := by
  intro es
  induction es with
  | nil =>
    intro buf _ hbuf
    rw [sendNamesChunks]
    split
    · rename_i hnil
      have hb : buf = [] := by
        cases buf with
        | nil => rfl
        | cons x xs =>
          exact absurd (namesBuf_eq_nil hnil x (List.mem_cons_self _ _))
            (hbuf x (List.mem_cons_self _ _))
      simp [hb]
    · simp
  | cons s rest ih =>
    intro buf hes hbuf
    have hs : s ≠ [] := hes s (List.mem_cons_self _ _)
    have hrest : ∀ x ∈ rest, x ≠ [] := fun x hx =>
      hes x (List.mem_cons_of_mem _ hx)
    have hbs : ∀ x ∈ buf ++ [s], x ≠ [] := by
      intro x hx
      rcases List.mem_append.mp hx with hx' | hx'
      · exact hbuf x hx'
      · rw [List.mem_singleton] at hx'
        subst hx'
        exact hs
    rw [sendNamesChunks]
    split
    · rw [List.flatten_cons, ih [s] hrest (by simpa using hs)]
      simp
    · rw [ih (buf ++ [s]) hrest hbs]
      simp

theorem sendNamesChunks_bufLen (m : Nat) :
    ∀ (es buf : List Str), (∀ s ∈ es, s.length ≤ m) →
      (namesBuf buf).length ≤ m →
      ∀ c ∈ sendNamesChunks m buf es, (namesBuf c).length ≤ m := by
  intro es
  induction es with
  | nil =>
    intro buf _ hbuf c hc
    rw [sendNamesChunks] at hc
    split at hc
    · simp at hc
    · rw [List.mem_singleton] at hc
      subst hc
      exact hbuf
  | cons s rest ih =>
    intro buf hes hbuf c hc
    have hs : s.length ≤ m := hes s (List.mem_cons_self _ _)
    have hrest : ∀ x ∈ rest, x.length ≤ m := fun x hx =>
      hes x (List.mem_cons_of_mem _ hx)
    rw [sendNamesChunks] at hc
    split at hc
    · rcases List.mem_cons.mp hc with rfl | hc'
      · exact hbuf
      · refine ih [s] hrest ?_ c hc'
        simpa [namesBuf] using hs
    · rename_i hcond
      refine ih (buf ++ [s]) hrest ?_ c hc
      rw [namesBuf_append]
      split
      · exact hs
      · rename_i hne
        have hn : (namesBuf buf).length + 1 + s.length ≤ m := by
          by_contra hgt
          exact hcond ⟨hne, by omega⟩
        simp only [List.length_append, List.length_cons, List.length_nil]
        omega

theorem nameReply_len_le (srvPrefix nick : Str) (status : Char) (dn t : Str) :
    msgLen (nameReply srvPrefix nick status dn t) ≤
      msgLen (nameReply srvPrefix nick status dn []) + t.length := by
  simp only [nameReply, msgLen, paramsLen]
  have h0 : lastParamColon ([] : Str) = true := rfl
  rw [h0]
  split <;> simp <;> omega

theorem joinInsert_perm (e : JoinEntry) (l : List JoinEntry) :
    List.Perm (joinInsert e l) (e :: l) := by
  induction l with
  | nil => simp [joinInsert]
  | cons q rest ih =>
    simp only [joinInsert]
    split
    · exact List.Perm.refl _
    · exact (List.Perm.cons q ih).trans (List.Perm.swap e q rest)

theorem joinSort_perm (l : List JoinEntry) : List.Perm (joinSort l) l := by
  induction l with
  | nil => simp [joinSort]
  | cons e rest ih =>
    exact (joinInsert_perm e (joinSort rest)).trans (List.Perm.cons e ih)

theorem chanBuf_append (g : List JoinEntry) (e : JoinEntry) :
    chanBuf (g ++ [e]) =
      if chanBuf g = [] then e.channel else chanBuf g ++ [','] ++ e.channel := by
  unfold chanBuf
  rw [List.foldl_append]
  rfl

theorem keyBuf_append (g : List JoinEntry) (e : JoinEntry) :
    keyBuf (g ++ [e]) =
      if e.key = [] then keyBuf g
      else if keyBuf g = [] then e.key else keyBuf g ++ [','] ++ e.key := by
  unfold keyBuf
  rw [List.foldl_append]
  rfl

/-- The channels builder is empty exactly when every accumulated channel
name was empty. -/
theorem chanBuf_eq_nil {g : List JoinEntry} (h : chanBuf g = []) :
    ∀ e ∈ g, e.channel = [] := by
  suffices hgen : ∀ (l : List JoinEntry) (b : Str),
      l.foldl (fun b e => if b = [] then e.channel else b ++ [','] ++ e.channel) b = [] →
      b = [] ∧ ∀ e ∈ l, e.channel = [] by
    exact (hgen g [] h).2
  intro l
  induction l with
  | nil => intro b hb; exact ⟨hb, by simp⟩
  | cons e rest ih =>
    intro b hb
    rw [List.foldl_cons] at hb
    obtain ⟨hstep, hrest⟩ := ih _ hb
    by_cases hbe : b = []
    · rw [if_pos hbe] at hstep
      refine ⟨hbe, ?_⟩
      intro x hx
      rcases List.mem_cons.mp hx with rfl | hx'
      · exact hstep
      · exact hrest x hx'
    · rw [if_neg hbe] at hstep
      exact absurd hstep (by simp)

theorem joinGroups_flatten :
    ∀ (es g : List JoinEntry), (∀ e ∈ es, e.channel ≠ []) →
      (∀ e ∈ g, e.channel ≠ []) →
      (joinGroups g es).flatten = g ++ es := by
  intro es
  induction es with
  | nil =>
    intro g _ hg
    rw [joinGroups]
    split
    · rename_i hnil
      have hgn : g = [] := by
        cases g with
        | nil => rfl
        | cons x xs =>
          exact absurd (chanBuf_eq_nil hnil x (List.mem_cons_self _ _))
            (hg x (List.mem_cons_self _ _))
      simp [hgn]
    · simp
  | cons e rest ih =>
    intro g hes hg
    have he : e.channel ≠ [] := hes e (List.mem_cons_self _ _)
    have hrest : ∀ x ∈ rest, x.channel ≠ [] := fun x hx =>
      hes x (List.mem_cons_of_mem _ hx)
    have hge : ∀ x ∈ g ++ [e], x.channel ≠ [] := by
      intro x hx
      rcases List.mem_append.mp hx with hx' | hx'
      · exact hg x hx'
      · rw [List.mem_singleton] at hx'
        subst hx'
        exact he
    rw [joinGroups]
    split
    · split
      · rw [List.flatten_cons, ih [e] hrest (by simpa using he)]
        simp
      · rw [ih (g ++ [e]) hrest hge]
        simp
    · split
      · rw [List.flatten_cons, ih [e] hrest (by simpa using he)]
        simp
      · rw [ih (g ++ [e]) hrest hge]
        simp

theorem joinBuf_append_le (g : List JoinEntry) (e : JoinEntry) :
    (chanBuf (g ++ [e])).length + (keyBuf (g ++ [e])).length ≤
      (chanBuf g).length + (keyBuf g).length + joinWeight e := by
  rw [chanBuf_append, keyBuf_append]
  unfold joinWeight
  split_ifs <;> (try simp [List.length_append]) <;> omega

theorem joinGroups_bufLen :
    ∀ (es g : List JoinEntry),
      (∀ e ∈ es, joinWeight e ≤ joinMaxLength) →
      (∀ e ∈ es, e.channel ≠ []) → (∀ e ∈ g, e.channel ≠ []) →
      (chanBuf g).length + (keyBuf g).length ≤ joinMaxLength →
      ∀ g' ∈ joinGroups g es,
        (chanBuf g').length + (keyBuf g').length ≤ joinMaxLength := by
  intro es
  induction es with
  | nil =>
    intro g _ _ _ hg g' hg'
    rw [joinGroups] at hg'
    split at hg'
    · simp at hg'
    · rw [List.mem_singleton] at hg'
      subst hg'
      exact hg
  | cons e rest ih =>
    intro g hes hch hgch hg g' hg'
    have he : joinWeight e ≤ joinMaxLength := hes e (List.mem_cons_self _ _)
    have hec : e.channel ≠ [] := hch e (List.mem_cons_self _ _)
    have hrest : ∀ x ∈ rest, joinWeight x ≤ joinMaxLength := fun x hx =>
      hes x (List.mem_cons_of_mem _ hx)
    have hchrest : ∀ x ∈ rest, x.channel ≠ [] := fun x hx =>
      hch x (List.mem_cons_of_mem _ hx)
    have hgech : ∀ x ∈ g ++ [e], x.channel ≠ [] := by
      intro x hx
      rcases List.mem_append.mp hx with hx' | hx'
      · exact hgch x hx'
      · rw [List.mem_singleton] at hx'
        subst hx'
        exact hec
    have hfresh : (chanBuf [e]).length + (keyBuf [e]).length ≤ joinMaxLength := by
      have h1 : chanBuf [e] = e.channel := rfl
      have h2 : keyBuf [e] = if e.key = [] then [] else e.key := rfl
      rw [h1, h2]
      unfold joinWeight at he
      by_cases hk : e.key = [] <;> simp [hk] at he ⊢ <;> omega
    have hap := joinBuf_append_le g e
    unfold joinWeight at hap
    have hgnil : chanBuf g = [] → g = [] := by
      intro hnil
      cases g with
      | nil => rfl
      | cons x xs =>
        exact absurd (chanBuf_eq_nil hnil x (List.mem_cons_self _ _))
          (hgch x (List.mem_cons_self _ _))
    rw [joinGroups] at hg'
    by_cases hk : e.key = []
    · rw [if_pos hk] at hg'
      rw [if_pos hk] at hap
      split at hg'
      · rcases List.mem_cons.mp hg' with h' | h'
        · rw [h']
          exact hg
        · exact ih [e] hrest hchrest (by simpa using hec) hfresh g' h'
      · rename_i hcond
        refine ih (g ++ [e]) hrest hchrest hgech ?_ g' hg'
        by_cases hcb : chanBuf g = []
        · rw [hgnil hcb]
          simpa using hfresh
        · have hn : ¬ (chanBuf g).length + (keyBuf g).length + 1 +
              e.channel.length + 0 > joinMaxLength := fun hgt => hcond ⟨hcb, hgt⟩
          omega
    · rw [if_neg hk] at hg'
      rw [if_neg hk] at hap
      split at hg'
      · rcases List.mem_cons.mp hg' with h' | h'
        · rw [h']
          exact hg
        · exact ih [e] hrest hchrest (by simpa using hec) hfresh g' h'
      · rename_i hcond
        refine ih (g ++ [e]) hrest hchrest hgech ?_ g' hg'
        by_cases hcb : chanBuf g = []
        · rw [hgnil hcb]
          simpa using hfresh
        · have hn : ¬ (chanBuf g).length + (keyBuf g).length + 1 +
              e.channel.length + (1 + e.key.length) > joinMaxLength :=
            fun hgt => hcond ⟨hcb, hgt⟩
          omega

theorem keyBuf_clean (g : List JoinEntry)
    (hg : ∀ e ∈ g, ' ' ∉ e.key ∧ e.key.head? ≠ some ':') :
    keyBuf g = [] ∨ (' ' ∉ keyBuf g ∧ (keyBuf g).head? ≠ some ':') := by
  suffices h : ∀ (l : List JoinEntry) (b : Str),
      (∀ e ∈ l, ' ' ∉ e.key ∧ e.key.head? ≠ some ':') →
      (b = [] ∨ (' ' ∉ b ∧ b.head? ≠ some ':')) →
      (l.foldl (fun b e => if e.key = [] then b else if b = [] then e.key
        else b ++ [','] ++ e.key) b) = [] ∨
      (' ' ∉ (l.foldl (fun b e => if e.key = [] then b else if b = [] then e.key
        else b ++ [','] ++ e.key) b) ∧
       (l.foldl (fun b e => if e.key = [] then b else if b = [] then e.key
        else b ++ [','] ++ e.key) b).head? ≠ some ':') by
    exact h g [] hg (Or.inl rfl)
  intro l
  induction l with
  | nil => intro b _ hb; exact hb
  | cons e rest ih =>
    intro b hl hb
    rw [List.foldl_cons]
    apply ih _ (fun x hx => hl x (List.mem_cons_of_mem _ hx))
    have he := hl e (List.mem_cons_self _ _)
    by_cases hk : e.key = []
    · simpa [hk] using hb
    · simp only [if_neg hk]
      by_cases hbe : b = []
      · simp only [hbe, if_pos rfl]
        exact Or.inr he
      · simp only [if_neg hbe]
        rcases hb with rfl | ⟨hsp, hcol⟩
        · exact absurd rfl hbe
        · refine Or.inr ⟨?_, ?_⟩
          · intro hmem
            rcases List.mem_append.mp hmem with hmem' | hmem'
            · rcases List.mem_append.mp hmem' with h' | h'
              · exact hsp h'
              · simp at h'
            · exact he.1 hmem'
          · cases b with
            | nil => exact absurd rfl hbe
            | cons x xs => simpa using hcol

theorem joinMsg_len (g : List JoinEntry)
    (hclean : keyBuf g = [] ∨ (' ' ∉ keyBuf g ∧ (keyBuf g).head? ≠ some ':')) :
    msgLen (joinMsg g) ≤ 6 + ((chanBuf g).length + (keyBuf g).length) := by
  have hcmd : ("JOIN".toList : Str).length = 4 := by decide
  by_cases hk : keyBuf g = []
  · simp only [joinMsg, msgLen, hk, if_pos rfl, List.append_nil]
    simp only [paramsLen]
    split <;> simp [hk] <;> omega
  · obtain ⟨hsp, hcol⟩ := hclean.resolve_left hk
    have hlast : lastParamColon (keyBuf g) = false := by
      simp [lastParamColon, hk, hsp, hcol]
    simp only [joinMsg, msgLen, if_neg hk]
    simp only [List.singleton_append, paramsLen, hlast]
    simp
    omega

/-- C3 (amended) — message splitting in `sendNames` and `Join`.
Partition: when every formatted member entry is non-empty, each member's
entry lands in exactly one RPL_NAMREPLY group, the NAMREPLY messages being
exactly those groups plus one RPL_ENDOFNAMES; when every channel name is
non-empty, the channel/key entries are distributed over the JOIN groups as
a permutation of the input, one JOIN message per group.  (A group whose
builder serializes empty is dropped by the code, so fully-empty entries
produce no message.)  Length, under the fitting hypotheses the code's
arithmetic assumes: if the empty name reply itself fits in 512 bytes and
each formatted member entry fits in the space it leaves, every RPL_NAMREPLY
serializes to at most 512 bytes; if channel names are non-empty, each
channel-plus-key entry fits in the 506 bytes `Join` budgets, and keys
contain no space and do not start with a colon, every JOIN message
serializes to at most 512 bytes.  (Without the fitting hypotheses the
bound fails: see the counterexample.) -/
theorem wire_limit_split (srvPrefix nick : Str) (status : Char) (dn : Str)
    (caps : Str → Bool) (marshal : Str → Str)
    (members : List (Str × List Membership)) (entries : List JoinEntry) :
    ((∀ mb ∈ members, namesEntry caps marshal mb ≠ []) →
     (sendNamesGroups srvPrefix nick status dn caps marshal members).flatten =
       members.map (namesEntry caps marshal)) ∧
    sendNames srvPrefix nick status dn caps marshal members =
      (sendNamesGroups srvPrefix nick status dn caps marshal members).map
        (fun buf => nameReply srvPrefix nick status dn (namesBuf buf)) ++
      [endOfNamesReply srvPrefix nick dn] ∧
    (msgLen (nameReply srvPrefix nick status dn []) ≤ MaxMessageLen →
     (∀ mb ∈ members, (namesEntry caps marshal mb).length ≤
        MaxMessageLen - msgLen (nameReply srvPrefix nick status dn [])) →
     ∀ msg ∈ sendNames srvPrefix nick status dn caps marshal members,
       msg.command = "353".toList → msgLen msg ≤ MaxMessageLen) ∧
    ((∀ e ∈ entries, e.channel ≠ []) →
     List.Perm (joinEntryGroups entries).flatten entries) ∧
    Join entries = (joinEntryGroups entries).map joinMsg ∧
    ((∀ e ∈ entries, e.channel ≠ []) →
     (∀ e ∈ entries, joinWeight e ≤ joinMaxLength) →
     (∀ e ∈ entries, ' ' ∉ e.key ∧ e.key.head? ≠ some ':') →
     ∀ msg ∈ Join entries, msgLen msg ≤ MaxMessageLen) := by
  refine ⟨?_, rfl, ?_, ?_, rfl, ?_⟩
  · intro hne
    unfold sendNamesGroups
    rw [sendNamesChunks_flatten _ (members.map (namesEntry caps marshal)) [] ?_ (by simp)]
    · simp
    · intro s hs
      rw [List.mem_map] at hs
      obtain ⟨mb, hmb, rfl⟩ := hs
      exact hne mb hmb
  · intro hbase hfit msg hmsg hcmd
    unfold sendNames at hmsg
    rcases List.mem_append.mp hmsg with hmem | hmem
    · rw [List.mem_map] at hmem
      obtain ⟨c, hc, rfl⟩ := hmem
      have hchunk : (namesBuf c).length ≤
          MaxMessageLen - msgLen (nameReply srvPrefix nick status dn []) := by
        refine sendNamesChunks_bufLen _ _ [] ?_ (by simp [namesBuf]) c hc
        intro s hs
        rw [List.mem_map] at hs
        obtain ⟨mb, hmb, rfl⟩ := hs
        exact hfit mb hmb
      have := nameReply_len_le srvPrefix nick status dn (namesBuf c)
      omega
    · rw [List.mem_singleton] at hmem
      subst hmem
      rw [show (endOfNamesReply srvPrefix nick dn).command = "366".toList from rfl] at hcmd
      exact absurd hcmd (by decide)
  · intro hch
    have hsortch : ∀ e ∈ joinSort entries, e.channel ≠ [] := fun e he =>
      hch e ((joinSort_perm entries).mem_iff.mp he)
    unfold joinEntryGroups
    rw [joinGroups_flatten (joinSort entries) [] hsortch (by simp)]
    simpa using joinSort_perm entries
  · intro hch hfit hclean msg hmsg
    unfold Join at hmsg
    rw [List.mem_map] at hmsg
    obtain ⟨g', hg', rfl⟩ := hmsg
    have hsortch : ∀ e ∈ joinSort entries, e.channel ≠ [] := fun e he =>
      hch e ((joinSort_perm entries).mem_iff.mp he)
    have hsortfit : ∀ e ∈ joinSort entries, joinWeight e ≤ joinMaxLength :=
      fun e he => hfit e ((joinSort_perm entries).mem_iff.mp he)
    have hbuf : (chanBuf g').length + (keyBuf g').length ≤ joinMaxLength :=
      joinGroups_bufLen (joinSort entries) [] hsortfit hsortch (by simp)
        (by simp [chanBuf, keyBuf]) g' hg'
    have hgclean : ∀ e ∈ g', ' ' ∉ e.key ∧ e.key.head? ≠ some ':' := by
      intro e he
      have hmem : e ∈ (joinGroups [] (joinSort entries)).flatten :=
        List.mem_flatten.mpr ⟨g', hg', he⟩
      rw [joinGroups_flatten (joinSort entries) [] hsortch (by simp)] at hmem
      exact hclean e ((joinSort_perm entries).mem_iff.mp (by simpa using hmem))
    have hmax : joinMaxLength = 506 := by decide
    have := joinMsg_len g' (keyBuf_clean g' hgclean)
    unfold MaxMessageLen
    omega

set_option maxRecDepth 4000 in
/-- C3 witness: a concrete NAMES reply for two members and a concrete JOIN
for a keyed and an unkeyed channel, all within the 512-byte limit. -/
theorem wire_limit_split_witness :
    (∀ msg ∈ sendNames "irc.example.org".toList "me".toList '=' "#c".toList
        (fun _ => false) id [("alice".toList, []), ("bob".toList, [])],
      msg.command = "353".toList → msgLen msg ≤ MaxMessageLen) ∧
    (∀ msg ∈ Join [⟨"#a".toList, []⟩, ⟨"#b".toList, "k".toList⟩],
      msgLen msg ≤ MaxMessageLen) :=
  ⟨(wire_limit_split "irc.example.org".toList "me".toList '=' "#c".toList
      (fun _ => false) id [("alice".toList, []), ("bob".toList, [])] []).2.2.1
      (by decide) (by decide),
   (wire_limit_split "irc.example.org".toList "me".toList '=' "#c".toList
      (fun _ => false) id [] [⟨"#a".toList, []⟩, ⟨"#b".toList, "k".toList⟩]).2.2.2.2.2
      (by decide) (by decide) (by decide)⟩

set_option maxRecDepth 20000 in
/-- C3 counterexample: a single channel whose name is 600 characters long
produces one JOIN message of 605 bytes, over the 512-byte limit the claim
asserts for every channel list. -/
theorem join_length_counterexample :
    Join [⟨List.replicate 600 'a', []⟩] =
      [⟨none, "JOIN".toList, [List.replicate 600 'a']⟩] ∧
    MaxMessageLen < msgLen ⟨none, "JOIN".toList, [List.replicate 600 'a']⟩ := by
  constructor
  · rfl
  · decide

end Soju
